import Mathlib

/-!
Verification of the av_ntrip_client correction-relay bridge.

This file gives a shallow embedding of the bridge's core logic
(`scripts/nmea_generator.py` and `scripts/ntrip_client.py`) and proves the
testable properties of its specification against that embedding.

Conventions of the embedding:
* Python byte strings become `List Nat` (each element a byte value).
* Python `str` becomes Lean `String` (or a list of Unicode code points).
* Fallible operations return `Option`/`Except`; an uncaught Python
  exception is an `Except.error`.
* Python floats are modelled as exact rationals (`ℚ`); for the inputs that
  appear in the claims the binary64 rounding of CPython and exact rational
  arithmetic agree at the printed precision.
* Socket and clock effects are passed in explicitly as outcome parameters
  (an I/O call either returns data, times out, or fails).
-/

/-- ASCII whitespace accepted by CPython's `int(str)` before/after the
number (the model restricts itself to ASCII input). -/
def isPyWs (c : Char) : Bool :=
  c = ' ' || c = '\t' || c = '\n' || c = '\r' || c = '\x0b' || c = '\x0c'

/-- Decimal digit value of an ASCII character, if it is one. -/
def digitVal (c : Char) : Option Nat :=
  if '0' ≤ c && c ≤ '9' then some (c.toNat - 48) else none

/-- Continue parsing a CPython integer literal after its first digit:
further digits, with single underscores allowed between digits. -/
def pyDigitsAux : List Char → Nat → Option Nat
  | [], acc => some acc
  | c :: rest, acc =>
    if c = '_' then
      match rest with
      | [] => none
      | d :: rest2 =>
        match digitVal d with
        | some v => pyDigitsAux rest2 (acc * 10 + v)
        | none => none
    else
      match digitVal c with
      | some v => pyDigitsAux rest (acc * 10 + v)
      | none => none

/-- Parse a nonempty CPython digit run (first character must be a digit). -/
def pyDigitsStart : List Char → Option Nat
  | [] => none
  | c :: rest =>
    match digitVal c with
    | some v => pyDigitsAux rest v
    | none => none

/-- CPython `int(s)` on an ASCII string: strip surrounding whitespace,
optional sign, then digits with single underscores between digits;
`none` models a raised `ValueError`. -/
def pyIntParse (s : String) : Option Int :=
  let trimmed := ((s.data.dropWhile isPyWs).reverse.dropWhile isPyWs).reverse
  match trimmed with
  | '+' :: rest => (pyDigitsStart rest).map Int.ofNat
  | '-' :: rest => (pyDigitsStart rest).map (fun n => -(n : Int))
  | l => (pyDigitsStart l).map Int.ofNat

/-- Python slice `data[s:e]` for byte strings, with `s`, `e` already
clamped to `Nat` (the call sites below only use nonnegative bounds; a
negative Python stop index is translated by its caller via truncated
subtraction, which yields the same clamping to an empty slice). -/
def pySlice (data : List Nat) (s e : Nat) : List Nat :=
  (data.drop s).take (e - s)

/-- Python `int.from_bytes(l, byteorder='little')`. -/
def intFromBytesLE (l : List Nat) : Nat :=
  l.foldr (fun b acc => b + 256 * acc) 0

/-- Is `b` a UTF-8 continuation byte? -/
def utf8Cont (b : Nat) : Bool :=
  0x80 ≤ b && b ≤ 0xBF

/-- Strict UTF-8 decoding of a byte list into code points, as CPython's
`bytes.decode()` performs it: overlong encodings, surrogates, code points
above `0x10FFFF` and stray/missing continuation bytes are all rejected
(`none` models a raised `UnicodeDecodeError`). -/
def utf8Decode : List Nat → Option (List Nat)
  | [] => some []
  | b :: rest =>
    if b < 0x80 then
      (utf8Decode rest).map (fun cs => b :: cs)
    else if 0xC2 ≤ b && b ≤ 0xDF then
      match rest with
      | b2 :: rest2 =>
        if utf8Cont b2 then
          (utf8Decode rest2).map (fun cs => ((b - 0xC0) * 64 + (b2 - 0x80)) :: cs)
        else none
      | [] => none
    else if 0xE0 ≤ b && b ≤ 0xEF then
      match rest with
      | b2 :: b3 :: rest3 =>
        let lo2 := if b = 0xE0 then 0xA0 else 0x80
        let hi2 := if b = 0xED then 0x9F else 0xBF
        if lo2 ≤ b2 && b2 ≤ hi2 && utf8Cont b3 then
          (utf8Decode rest3).map
            (fun cs => ((b - 0xE0) * 4096 + (b2 - 0x80) * 64 + (b3 - 0x80)) :: cs)
        else none
      | _ => none
    else if 0xF0 ≤ b && b ≤ 0xF4 then
      match rest with
      | b2 :: b3 :: b4 :: rest4 =>
        let lo2 := if b = 0xF0 then 0x90 else 0x80
        let hi2 := if b = 0xF4 then 0x8F else 0xBF
        if lo2 ≤ b2 && b2 ≤ hi2 && utf8Cont b3 && utf8Cont b4 then
          (utf8Decode rest4).map
            (fun cs =>
              ((b - 0xF0) * 262144 + (b2 - 0x80) * 4096 + (b3 - 0x80) * 64 + (b4 - 0x80)) :: cs)
        else none
      | _ => none
    else none

namespace NMEAGenerator

/-- `NMEAGenerator.is_gpgga_data_valid` (nmea_generator.py, lines 97-117):
split on `,`; reject field counts outside `[14, 15]`; parse field 6 with
`int` (a `ValueError` is caught and yields `False`); reject quality `0`. -/
def is_gpgga_data_valid (nmea_sentence : String) : Bool :=
  let fields := nmea_sentence.splitOn ","
  if fields.length < 14 || fields.length > 15 then
    false
  else
    match pyIntParse (fields.getD 6 "") with
    | none => false
    | some gps_qual => if gps_qual = 0 then false else true

end NMEAGenerator

namespace NtripClient

/-- `self.NOVATEL_OK_ID` (ntrip_client.py, line 64). -/
def NOVATEL_OK_ID : Nat := 1

/-- `self.RTCM_DATA_PREAMBLE` (ntrip_client.py, line 67). -/
def RTCM_DATA_PREAMBLE : Nat := 0xD3

/-- Python exceptions the embedded code can leave uncaught. -/
inductive PyErr
  | osError
  | nameError
  | unicodeError
deriving DecidableEq

/-- The log event produced by `parse_novatel_binary`: a debug-level event
for the recognised OK response id, a warning otherwise; both carry the
decoded payload text (as Unicode code points). -/
inductive NovatelLog
  | debugResp (text : List Nat)
  | warnResp (text : List Nat)
deriving DecidableEq

/-- `NtripClient.parse_novatel_binary` (ntrip_client.py, lines 266-299):
decode the 4-byte little-endian response id at offset 28, slice the
payload `data[32:-4]`, and log it at debug level when the id is the OK
code, as a warning otherwise.  `resp.decode()` raises
`UnicodeDecodeError` (uncaught) when the payload is not valid UTF-8. -/
def parse_novatel_binary (data : List Nat) : Except PyErr NovatelLog :=
  let offset := 28
  let size := 4
  let resp_id_end := offset + size
  let checksum_size := 4
  let resp_id := intFromBytesLE (pySlice data offset resp_id_end)
  let resp := pySlice data resp_id_end (data.length - checksum_size)
  match utf8Decode resp with
  | none => .error .unicodeError
  | some text =>
    if resp_id = NOVATEL_OK_ID then .ok (.debugResp text) else .ok (.warnResp text)

/-- A 37-byte Novatel binary frame whose one-byte payload `0xFF` is not
valid UTF-8: header, 24 filler bytes, response id 1 at offset 28, payload
byte `0xFF`, 4 checksum bytes. -/
def novatelBadFrame : List Nat :=
  [0xAA, 0x44, 0x12, 0x1C] ++ List.replicate 24 0 ++ [1, 0, 0, 0] ++ [0xFF] ++ [0, 0, 0, 0]

/-- A 38-byte Novatel binary frame with response id 1 and ASCII payload
`OK` (bytes `0x4F 0x4B`). -/
def novatelOkFrame : List Nat :=
  [0xAA, 0x44, 0x12, 0x1C] ++ List.replicate 24 0 ++ [1, 0, 0, 0] ++ [0x4F, 0x4B] ++ [0, 0, 0, 0]

end NtripClient

/-- Python `int(x)` on a float/rational: truncation toward zero. -/
def truncQ (x : ℚ) : ℤ :=
  if 0 ≤ x then ⌊x⌋ else ⌈x⌉

/-- Round a rational to the nearest integer, ties to even (the rounding
CPython's float formatting applies). -/
def roundHalfEven (x : ℚ) : ℤ :=
  let f := ⌊x⌋
  let r := x - f
  if r < 1 / 2 then f
  else if 1 / 2 < r then f + 1
  else if f % 2 = 0 then f else f + 1

/-- Left-pad a string with zeros to width `w`. -/
def padLeftZero (s : String) (w : Nat) : String :=
  String.mk (List.replicate (w - s.length) '0') ++ s

/-- Python `f-string` `{n:0wd}` for an integer `n`: decimal digits,
zero-padded to width `w` after the sign. -/
def formatIntPad (n : ℤ) (w : Nat) : String :=
  if n < 0 then "-" ++ padLeftZero (toString n.natAbs) (w - 1)
  else padLeftZero (toString n.toNat) w

/-- Python `f-string` `{x:0w.pf}`: round to `p` decimal places (half to
even), render with exactly `p` decimals, zero-pad to width `w` after the
sign. -/
def formatFixed (x : ℚ) (p : Nat) (w : Nat) : String :=
  let scaled := roundHalfEven (x * (10 : ℚ) ^ p)
  let mag := scaled.natAbs
  let core := toString (mag / 10 ^ p) ++ "." ++ padLeftZero (toString (mag % 10 ^ p)) p
  if x < 0 then "-" ++ padLeftZero core (w - 1)
  else padLeftZero core w

/-- Uppercase hexadecimal digit. -/
def hexDigitChar (n : Nat) : Char :=
  if n < 10 then Char.ofNat (48 + n) else Char.ofNat (55 + n)

/-- Python `f-string` `{n:02X}` for a byte value (`n < 256`, which the
call site guarantees: an XOR of character codes below 256). -/
def format02X (n : Nat) : String :=
  String.mk [hexDigitChar (n / 16 % 16), hexDigitChar (n % 16)]

namespace NMEAGenerator

/-- `NMEAGenerator._calculate_checksum` (nmea_generator.py, lines 27-32):
XOR of all character codes, rendered as two uppercase hex digits. -/
def _calculate_checksum (nmea_str : String) : String :=
  format02X (nmea_str.data.foldl (fun checksum c => Nat.xor checksum c.toNat) 0)

/-- `NMEAGenerator.generate_gga_sentence` (nmea_generator.py, lines
34-52), with the configured fix coordinates and the wall-clock `HHMMSS`
string passed explicitly.  Note the asymmetry taken verbatim from the
source: the longitude branch applies `abs`, the latitude branch does
not. -/
def generate_gga_sentence (fix_latitude fix_longitude fix_altitude : ℚ)
    (current_time : String) : String :=
  let lat_deg : ℤ := truncQ fix_latitude
  let lat_min : ℚ := (fix_latitude - lat_deg) * 60
  let lat_hemisphere : String := if 0 ≤ fix_latitude then "N" else "S"
  let lon_deg : ℤ := truncQ |fix_longitude|
  let lon_min : ℚ := (|fix_longitude| - lon_deg) * 60
  let lon_hemisphere : String := if 0 ≤ fix_longitude then "E" else "W"
  let gga := "GPGGA," ++ current_time ++ "," ++
    formatIntPad lat_deg 2 ++ formatFixed lat_min 4 7 ++ "," ++ lat_hemisphere ++ "," ++
    formatIntPad lon_deg 3 ++ formatFixed lon_min 4 7 ++ "," ++ lon_hemisphere ++
    ",1,08,0.9," ++ formatFixed fix_altitude 1 0 ++ ",M,46.9,M,,"
  "$" ++ gga ++ "*" ++ _calculate_checksum gga

end NMEAGenerator

/-- Parse an NMEA latitude field `ddmm.mmmm` with its hemisphere letter
back into signed degrees: two degree digits, then decimal minutes. -/
def natOfDigits : List Char → Option Nat
  | [] => none
  | l =>
    l.foldl
      (fun acc c =>
        match acc, digitVal c with
        | some a, some v => some (a * 10 + v)
        | _, _ => none)
      (some 0)

/-- Parse a decimal string `mm.mmmm` (digits, dot, digits) as a rational. -/
def parseDecFrac (cs : List Char) : Option ℚ :=
  let ip := cs.takeWhile (fun c => c ≠ '.')
  let rest := cs.dropWhile (fun c => c ≠ '.')
  match rest with
  | '.' :: fp =>
    match natOfDigits ip, natOfDigits fp with
    | some i, some f => some ((i : ℚ) + (f : ℚ) / (10 : ℚ) ^ fp.length)
    | _, _ => none
  | _ => none

/-- Re-parse a generated latitude field together with its hemisphere
letter: first two characters are degree digits, the remainder decimal
minutes; `S` negates. -/
def parseLatDDMM (field : String) (hemi : String) : Option ℚ :=
  match field.data with
  | d1 :: d2 :: rest =>
    match digitVal d1, digitVal d2, parseDecFrac rest with
    | some a, some b, some m =>
      let v : ℚ := (10 * a + b : ℕ) + m / 60
      if hemi = "S" then some (-v)
      else if hemi = "N" then some v
      else none
    | _, _, _ => none
  | _ => none

/-- One step of Python `bytes.find(pat, i)`: scan indices `i, i+1, ...`
for `fuel` steps, returning the first index where `pat` occurs. -/
def findFromAux (data pat : List Nat) : Nat → Nat → Option Nat
  | _, 0 => none
  | i, fuel + 1 =>
    if pat.isPrefixOf (data.drop i) then some i else findFromAux data pat (i + 1) fuel

/-- Python `data.find(pat, i)` (with `-1` mapped to `none` at call sites):
the least index `j ≥ i` at which `pat` occurs in `data`. -/
def findFrom (data pat : List Nat) (i : Nat) : Option Nat :=
  findFromAux data pat i (data.length - i)

/-- Python `pat in data` for byte strings: contiguous-subsequence test. -/
def containsSeq (data pat : List Nat) : Bool :=
  (findFrom data pat 0).isSome

namespace NtripClient

/-- `binary_header = b'\xaaD\x12\x1c'` (ntrip_client.py, line 317). -/
def binary_header : List Nat := [0xAA, 0x44, 0x12, 0x1C]

/-- `ascii_start = b'$GP'` (ntrip_client.py, line 318). -/
def ascii_start : List Nat := [0x24, 0x47, 0x50]

/-- `b'\r\n'`, the ASCII sentence terminator. -/
def crlfBytes : List Nat := [0x0D, 0x0A]

/-- The bytes of `b'GPGGA'`. -/
def gpggaBytes : List Nat := [0x47, 0x50, 0x47, 0x47, 0x41]

/-- The loop body of `NtripClient.split_data` (ntrip_client.py, lines
301-370), with the loop turned into fuel-indexed recursion (each
iteration strictly advances the scan index `i`, so `data.length` fuel
suffices from `i = 0`).  Returns `(ascii_msgs, binary_msgs)`. -/
def splitDataAux (data : List Nat) : Nat → Nat → List (List Nat) × List (List Nat)
  | 0, _ => ([], [])
  | fuel + 1, i =>
    if i < data.length then
      if binary_header.isPrefixOf (data.drop i) then
        let start := i
        let j := i + binary_header.length
        let next_binary_index := (findFrom data binary_header j).getD data.length
        let next_ascii_index := (findFrom data ascii_start j).getD data.length
        let e := min next_binary_index next_ascii_index
        let rest := splitDataAux data fuel e
        (rest.1, pySlice data start e :: rest.2)
      else if ascii_start.isPrefixOf (data.drop i) then
        let start := i
        let e :=
          match findFrom data crlfBytes i with
          | none => data.length
          | some j => j + crlfBytes.length
        let rest := splitDataAux data fuel e
        (pySlice data start e :: rest.1, rest.2)
      else
        splitDataAux data fuel (i + 1)
    else ([], [])

/-- `NtripClient.split_data` (ntrip_client.py, lines 301-370). -/
def split_data (data : List Nat) : List (List Nat) × List (List Nat) :=
  splitDataAux data data.length 0

/-- The outcome of one socket `recv` call. -/
inductive RecvOutcome
  | ok (data : List Nat)
  | timeout
  | oserror
deriving DecidableEq

/-- The outcome of one socket `send` call. -/
inductive SendOutcome
  | ok
  | timeout
  | oserror
deriving DecidableEq

/-- The mutable state of an `NtripClient` object that the claims are
about.  `gnss_socket` and the caster socket are modelled by presence
(`None` versus a socket object); `lastMessage` models the local variable
`message` of the `read_nmea_and_send_to_server` loop body, which stays
bound across iterations of the `while` loop and is unbound before the
first successful `recv`; `lastUploadOk` is a ghost observation field
recording the outcome of the most recent fix-upload socket write (it
influences no behaviour). -/
structure ClientState where
  ntrip_connected : Bool
  nmea_request_sent : Bool
  latest_nmea_data_valid : Bool
  received_rtcm_msgs_ids : List (Nat × Nat)
  gnss_socket : Bool
  lastMessage : Option (List Nat)
  lastUploadOk : Option Bool
deriving DecidableEq

/-- The configuration and mode flags handed to the client at startup. -/
structure Config where
  use_fix_location : Bool
  fix_latitude : ℚ
  fix_longitude : ℚ
  fix_altitude : ℚ
deriving DecidableEq

/-- The state set up by `NtripClient.__init__` (ntrip_client.py, lines
50-68): both sockets `None`, all flags `False`, empty counters. -/
def initState : ClientState :=
  { ntrip_connected := false
    nmea_request_sent := false
    latest_nmea_data_valid := false
    received_rtcm_msgs_ids := []
    gnss_socket := false
    lastMessage := none
    lastUploadOk := none }

/-- `defaultdict(int)` increment: `d[k] += 1`. -/
def bump (m : List (Nat × Nat)) (k : Nat) : List (Nat × Nat) :=
  match m with
  | [] => [(k, 1)]
  | (k', v) :: rest => if k' = k then (k', v + 1) :: rest else (k', v) :: bump rest k

/-- `NtripClient.connect_ntrip_server` (ntrip_client.py, lines 154-208):
the socket object is created and the handshake attempted; only a
response containing a success token sets `ntrip_connected = True` (and
returns `True`); every failure path returns `False` leaving the flags
untouched.  `ok` abstracts whether the connect + handshake succeeded. -/
def connect_ntrip_server (st : ClientState) (ok : Bool) : ClientState :=
  if ok then { st with ntrip_connected := true } else st

/-- `NtripClient.disconnect_ntrip_server` (ntrip_client.py, lines
210-221): sets `ntrip_connected = False`; shutdown/close exceptions are
caught and logged. -/
def disconnect_ntrip_server (st : ClientState) : ClientState :=
  { st with ntrip_connected := false }

/-- `NtripClient.connect_to_gnss` (ntrip_client.py, lines 223-239): the
socket object is assigned before the connect attempt, so `gnss_socket`
is non-`None` afterwards whether or not the connect succeeded. -/
def connect_to_gnss (st : ClientState) : ClientState :=
  { st with gnss_socket := true }

/-- `NtripClient.send_rtcm_to_gnss` (ntrip_client.py, lines 435-445):
if the receiver socket exists, attempt the send — `OSError` and
`socket.timeout` are both caught and only logged; if the socket is
`None`, only a warning is logged.  Returns the (unchanged) state and the
bytes handed to the socket `send` call, if one was made. -/
def send_rtcm_to_gnss (st : ClientState) (rctm_sentence : List Nat) (out : SendOutcome) :
    ClientState × Option (List Nat) :=
  if st.gnss_socket then
    match out with
    | .ok => (st, some rctm_sentence)
    | .timeout => (st, some rctm_sentence)
    | .oserror => (st, some rctm_sentence)
  else
    (st, none)

/-- `NtripClient.send_nmea_to_ntrip_server` (ntrip_client.py, lines
447-465): a no-op (plus pause) when the caster session is not connected;
otherwise the upload write sets `nmea_request_sent = True` on success,
and on `OSError`/`socket.timeout` sets `nmea_request_sent = False` and
`ntrip_connected = False`.  The ghost field `lastUploadOk` records the
write outcome. -/
def send_nmea_to_ntrip_server (st : ClientState) (nmea_sentence : String)
    (out : SendOutcome) : ClientState :=
  if !st.ntrip_connected then
    st
  else
    match out with
    | .ok => { st with nmea_request_sent := true, lastUploadOk := some true }
    | .timeout =>
      { st with nmea_request_sent := false, ntrip_connected := false, lastUploadOk := some false }
    | .oserror =>
      { st with nmea_request_sent := false, ntrip_connected := false, lastUploadOk := some false }

/-- `NtripClient.is_rtcm_data` (ntrip_client.py, lines 467-469):
`response_data[0] == self.RTCM_DATA_PREAMBLE`; indexing an empty byte
string would raise `IndexError` (`none`). -/
def is_rtcm_data (response_data : List Nat) : Option Bool :=
  match response_data with
  | [] => none
  | b :: _ => some (decide (b = RTCM_DATA_PREAMBLE))

/-- The result of one call to `read_rtcm_and_send_to_gnss`: the state
afterwards and the chunk handed to `send_rtcm_to_gnss`, if any. -/
structure RelayOut where
  state : ClientState
  sentToGnss : Option (List Nat)
deriving DecidableEq

/-- `NtripClient.read_rtcm_and_send_to_gnss` (ntrip_client.py, lines
471-511): one `recv` from the caster socket.  Only `socket.timeout` is
caught (marking the caster disconnected); a non-timeout `OSError` from
`recv` propagates (`.error .osError`).  An empty reply pauses.  A
non-empty chunk is classified with `is_rtcm_data`; for RTCM data,
decoding (`RTCMReader.parse`, abstracted as `parseRtcm`) on success
bumps that message id's counter and on failure only logs — and in every
non-empty case the identical chunk is handed to `send_rtcm_to_gnss`. -/
def read_rtcm_and_send_to_gnss (st : ClientState) (recv : RecvOutcome)
    (parseRtcm : List Nat → Option Nat) (out : SendOutcome) : Except PyErr RelayOut :=
  match recv with
  | .oserror => .error .osError
  | .timeout => .ok ⟨{ st with ntrip_connected := false }, none⟩
  | .ok server_response =>
    if server_response.isEmpty then
      .ok ⟨st, none⟩
    else
      let st1 :=
        if is_rtcm_data server_response = some true then
          match parseRtcm server_response with
          | some ident =>
            { st with received_rtcm_msgs_ids := bump st.received_rtcm_msgs_ids ident }
          | none => st
        else st
      let sent := send_rtcm_to_gnss st1 server_response out
      .ok ⟨sent.1, some server_response⟩

/-- Convert decoded code points back to a Lean string (the decoder only
produces valid Unicode scalar values). -/
def codePointsToString (cps : List Nat) : String :=
  String.mk (cps.map Char.ofNat)

/-- Walk the `for binary_msg in binary_msgs` loop (ntrip_client.py,
lines 424-425): each frame is parsed for logging only; a decode error
inside `parse_novatel_binary` propagates. -/
def processBinaryMsgs (st : ClientState) : List (List Nat) → Except PyErr ClientState
  | [] => .ok st
  | m :: rest =>
    match parse_novatel_binary m with
    | .error e => .error e
    | .ok _ => processBinaryMsgs st rest

/-- One iteration of the `NtripClient.read_nmea_and_send_to_server` loop
(ntrip_client.py, lines 372-433).  `recv` abstracts the GNSS socket
read; `upOut` the caster upload write inside `send_nmea_to_ntrip_server`;
`current_time` the wall clock used by the generator.  The `except
OSError` handler logs an f-string referencing the loop-local variable
`message`, which raises `NameError` if no earlier iteration bound it. -/
def read_nmea_and_send_to_server (cfg : Config) (current_time : String)
    (st : ClientState) (recv : RecvOutcome) (upOut : SendOutcome) :
    Except PyErr ClientState :=
  if !st.gnss_socket then
    .ok st
  else
    match recv with
    | .timeout => .ok st
    | .oserror =>
      match st.lastMessage with
      | none => .error .nameError
      | some _ => .ok st
    | .ok message =>
      let st := { st with lastMessage := some message }
      if message.isEmpty then
        .ok st
      else
        let pair := split_data message
        let ascii_msgs := pair.1
        let binary_msgs := pair.2
        let afterNmea : Except PyErr ClientState :=
          match ascii_msgs.find? (fun m => containsSeq m gpggaBytes) with
          | none => .ok st
          | some m =>
            if cfg.use_fix_location then
              let generated_sentence := NMEAGenerator.generate_gga_sentence
                cfg.fix_latitude cfg.fix_longitude cfg.fix_altitude current_time
              let st := { st with latest_nmea_data_valid := true }
              .ok (send_nmea_to_ntrip_server st generated_sentence upOut)
            else
              match utf8Decode m with
              | none => .error .unicodeError
              | some cps =>
                let nmea_sentence := codePointsToString cps
                let valid := NMEAGenerator.is_gpgga_data_valid nmea_sentence
                let st := { st with latest_nmea_data_valid := valid }
                if valid then
                  .ok (send_nmea_to_ntrip_server st nmea_sentence upOut)
                else
                  .ok st
        match afterNmea with
        | .error e => .error e
        | .ok st2 => processBinaryMsgs st2 binary_msgs

/-- What one iteration of the relay loop head decides to do. -/
inductive GateResult
  | pause
  | read
deriving DecidableEq

/-- The head of one iteration of the `while True` relay loop in
`NtripClient.run` (ntrip_client.py, lines 528-549): reconnect the caster
if needed (pausing and retrying when the attempt fails), then pause
unless `latest_nmea_data_valid` and `nmea_request_sent` both hold, and
only then fall through to `read_rtcm_and_send_to_gnss`.  `.pause` stands
for `time.sleep(self.PAUSE_DURATION)` followed by `continue`. -/
def run_iteration_gate (st : ClientState) (connectOk : Bool) : ClientState × GateResult :=
  let st := if !st.ntrip_connected then connect_ntrip_server st connectOk else st
  if !st.ntrip_connected then (st, .pause)
  else if !st.latest_nmea_data_valid then (st, .pause)
  else if !st.nmea_request_sent then (st, .pause)
  else (st, .read)

/-- The state-mutating operations of the bridge, for the reachability
relation: receiver connect, caster connect/disconnect, one relay-loop
read, one telemetry-loop iteration. -/
inductive Step
  | connectGnss
  | connectNtrip (ok : Bool)
  | disconnectNtrip
  | relay (recv : RecvOutcome) (parseRtcm : List Nat → Option Nat) (out : SendOutcome)
  | telemetry (cfg : Config) (current_time : String) (recv : RecvOutcome) (upOut : SendOutcome)

/-- Run one `Step` on the state; `.error` marks an uncaught exception
(after which the process/thread is no longer running this state
machine). -/
def stepRun (st : ClientState) : Step → Except PyErr ClientState
  | .connectGnss => .ok (connect_to_gnss st)
  | .connectNtrip ok => .ok (connect_ntrip_server st ok)
  | .disconnectNtrip => .ok (disconnect_ntrip_server st)
  | .relay recv parseRtcm out =>
    (read_rtcm_and_send_to_gnss st recv parseRtcm out).map (fun r => r.state)
  | .telemetry cfg t recv upOut => read_nmea_and_send_to_server cfg t st recv upOut

/-- The states the bridge can be in: the `__init__` state, closed under
successfully executed steps. -/
inductive Reachable : ClientState → Prop
  | init : Reachable initState
  | step {st st' : ClientState} {e : Step} :
      Reachable st → stepRun st e = .ok st' → Reachable st'

end NtripClient

/-- The byte string of a literal ASCII string. -/
def strBytes (s : String) : List Nat := s.data.map Char.toNat

/-- A valid GGA sentence as the receiver would emit it, CRLF included. -/
def demoGga : List Nat :=
  strBytes "$GPGGA,123519,4807.038,N,01131.000,E,1,08,0.9,545.4,M,46.9,M,,*47\r\n"

/-- The state after connecting both peers and relaying one valid fix. -/
def demoState : NtripClient.ClientState :=
  { ntrip_connected := true
    nmea_request_sent := true
    latest_nmea_data_valid := true
    received_rtcm_msgs_ids := []
    gnss_socket := true
    lastMessage := some demoGga
    lastUploadOk := some true }

namespace NtripClient

/-- A recognised span of the receive buffer: `kind = true` for a binary
frame, `false` for an ASCII sentence; `[s, e)` its byte range. -/
structure Seg where
  kind : Bool
  s : Nat
  e : Nat
deriving DecidableEq

/-- Where the binary frame starting at `i` ends: the earlier of the next
binary-header occurrence and the next ASCII-start occurrence searched
from `i + 4`, or the end of the buffer (ntrip_client.py, lines
329-342). -/
def binEnd (data : List Nat) (i : Nat) : Nat :=
  min ((findFrom data binary_header (i + binary_header.length)).getD data.length)
      ((findFrom data ascii_start (i + binary_header.length)).getD data.length)

/-- Where the ASCII sentence starting at `i` ends: through the next CRLF
inclusive, or the end of the buffer (ntrip_client.py, lines 353-360). -/
def ascEnd (data : List Nat) (i : Nat) : Nat :=
  match findFrom data crlfBytes i with
  | none => data.length
  | some j => j + crlfBytes.length

/-- The `split_data` scan, recording segment positions instead of byte
slices (proof artefact mirroring `splitDataAux`). -/
def splitSegsAux (data : List Nat) : Nat → Nat → List Seg
  | 0, _ => []
  | fuel + 1, i =>
    if i < data.length then
      if binary_header.isPrefixOf (data.drop i) then
        ⟨true, i, binEnd data i⟩ :: splitSegsAux data fuel (binEnd data i)
      else if ascii_start.isPrefixOf (data.drop i) then
        ⟨false, i, ascEnd data i⟩ :: splitSegsAux data fuel (ascEnd data i)
      else splitSegsAux data fuel (i + 1)
    else []

/-- The segment positions of a whole buffer. -/
def splitSegs (data : List Nat) : List Seg := splitSegsAux data data.length 0

/-- `p` lies inside one of the segments. -/
def Covered (segs : List Seg) (p : Nat) : Prop :=
  ∃ g ∈ segs, g.s ≤ p ∧ p < g.e

end NtripClient

/-- The concrete GGA sentence of the demultiplexer scenario (CRLF
included), 67 bytes. -/
def c7Sent : List Nat :=
  strBytes "$GPGGA,123519,4807.038,N,01131.000,E,1,08,0.9,545.4,M,46.9,M,,*FF\r\n"

/-- A 36-byte payload that happens to begin with the ASCII-start marker
`$GP` — "arbitrary payload" the demultiplexer heuristic misreads. -/
def c7P1bad : List Nat := strBytes "$GPQ" ++ List.replicate 32 7

/-- The scenario buffer built with the adversarial payload. -/
def c7BufBad : List Nat :=
  NtripClient.binary_header ++ c7P1bad ++ c7Sent ++
    NtripClient.binary_header ++ List.replicate 10 9

/-- A byte list containing no occurrence of either marker at any
offset. -/
def NoMarker (P : List Nat) : Prop :=
  ∀ j, NtripClient.binary_header.isPrefixOf (P.drop j) = false ∧
       NtripClient.ascii_start.isPrefixOf (P.drop j) = false

/-- The demultiplexer scenario buffer: header, 36-byte payload, the GGA
sentence, header, second payload. -/
def c7Buf (P1 P2 : List Nat) : List Nat :=
  NtripClient.binary_header ++ P1 ++ c7Sent ++ NtripClient.binary_header ++ P2

/-- C1: `is_gpgga_data_valid s` is true exactly when splitting `s` on `,`
yields 14 or 15 fields and field index 6 parses as a nonzero integer; it
is total (the embedding returns `Bool`, the caught `ValueError` included),
so it never raises. -/
theorem is_gpgga_data_valid_spec (s : String) :
    NMEAGenerator.is_gpgga_data_valid s = true ↔
      (((s.splitOn ",").length = 14 ∨ (s.splitOn ",").length = 15) ∧
        ∃ n : Int, pyIntParse ((s.splitOn ",").getD 6 "") = some n ∧ n ≠ 0) := by
  unfold NMEAGenerator.is_gpgga_data_valid
  by_cases hlen : ((s.splitOn ",").length < 14 || (s.splitOn ",").length > 15) = true
  · rw [if_pos hlen]
    have hno : ¬((s.splitOn ",").length = 14 ∨ (s.splitOn ",").length = 15) := by
      simp only [Bool.or_eq_true, decide_eq_true_eq] at hlen
      omega
    simp [hno]
  · rw [if_neg hlen]
    have hlen' : (s.splitOn ",").length = 14 ∨ (s.splitOn ",").length = 15 := by
      simp only [Bool.or_eq_true, decide_eq_true_eq] at hlen
      push_neg at hlen
      omega
    rcases h : pyIntParse ((s.splitOn ",").getD 6 "") with _ | q
    · simp [h]
    · by_cases hq : q = 0
      · simp [h, hq, hlen']
      · simp [h, hq, hlen']

/-- C6 counterexample: a binary frame of at least 36 bytes on which
`parse_novatel_binary` raises (the payload byte `0xFF` is not valid
UTF-8), refuting the claim that it never raises an exception. -/
theorem parse_novatel_binary_raises_cex :
    36 ≤ NtripClient.novatelBadFrame.length ∧
    NtripClient.parse_novatel_binary NtripClient.novatelBadFrame =
      .error .unicodeError := by
  constructor
  · decide
  · rfl

/-- C6 (amended): for every frame of at least 36 bytes,
`parse_novatel_binary` decodes the 4-byte little-endian identifier at
offset 28 and takes as payload the bytes from offset 32 up to but
excluding the last 4 bytes; when the payload is valid UTF-8 it emits a
debug (informational) event for identifier 1 and a warning event carrying
the payload for any other identifier, without raising; when the payload
is not valid UTF-8 it raises `UnicodeDecodeError`. -/
theorem parse_novatel_binary_spec (data : List Nat) (hlen : 36 ≤ data.length) :
    (∀ text, utf8Decode (pySlice data 32 (data.length - 4)) = some text →
      NtripClient.parse_novatel_binary data =
        .ok (if intFromBytesLE (pySlice data 28 32) = 1 then
              NtripClient.NovatelLog.debugResp text
             else NtripClient.NovatelLog.warnResp text)) ∧
    (utf8Decode (pySlice data 32 (data.length - 4)) = none →
      NtripClient.parse_novatel_binary data = .error .unicodeError) := by
  clear hlen
  constructor
  · intro text htext
    unfold NtripClient.parse_novatel_binary
    simp only [htext]
    have h32 : (28 : Nat) + 4 = 32 := rfl
    rw [h32]
    unfold NtripClient.NOVATEL_OK_ID
    by_cases hid : intFromBytesLE (pySlice data 28 32) = 1
    · rw [if_pos hid, if_pos hid]
    · rw [if_neg hid, if_neg hid]
  · intro hnone
    unfold NtripClient.parse_novatel_binary
    simp only [hnone]

/-- C6 witness: the amended theorem applied to the concrete 38-byte OK
frame whose payload is the ASCII text `OK`. -/
theorem parse_novatel_binary_spec_witness :
    NtripClient.parse_novatel_binary NtripClient.novatelOkFrame =
      .ok (.debugResp [0x4F, 0x4B]) := by
  have h := (parse_novatel_binary_spec NtripClient.novatelOkFrame (by decide)).1
    [0x4F, 0x4B] (by decide)
  simpa using h

/-- C5: evaluation at the failing input latitude `-48.1173` (longitude
`11.5167`, altitude `545.4`, time `123519`).  Because the latitude branch
of `generate_gga_sentence` omits `abs` (the longitude branch has it), a
negative latitude yields the malformed field `-48-7.0380` with hemisphere
`S`, which the ddmm.mmmm re-parse rejects; the same fix mirrored to
positive latitude produces the well-formed field `4807.0380` whose
re-parse recovers 48.1173 exactly. -/
theorem generate_gga_sentence_negative_latitude_bug :
    NMEAGenerator.generate_gga_sentence (-481173 / 10000) (115167 / 10000) (2727 / 5) "123519" =
      "$GPGGA,123519,-48-7.0380,S,01131.0020,E,1,08,0.9,545.4,M,46.9,M,,*68" ∧
    parseLatDDMM "-48-7.0380" "S" = none ∧
    NMEAGenerator.generate_gga_sentence (481173 / 10000) (115167 / 10000) (2727 / 5) "123519" =
      "$GPGGA,123519,4807.0380,N,01131.0020,E,1,08,0.9,545.4,M,46.9,M,,*45" ∧
    parseLatDDMM "4807.0380" "N" = some (481173 / 10000) := by
  have t1 : truncQ ((-481173 : ℚ) / 10000) = -48 := by
    rw [truncQ, if_neg (by norm_num), Int.ceil_eq_iff]
    norm_num
  have t1p : truncQ ((481173 : ℚ) / 10000) = 48 := by
    rw [truncQ, if_pos (by norm_num)]
    norm_num
  have habs : |((115167 : ℚ) / 10000)| = 115167 / 10000 := abs_of_nonneg (by norm_num)
  have t2 : truncQ ((115167 : ℚ) / 10000) = 11 := by
    rw [truncQ, if_pos (by norm_num)]
    norm_num
  have m1 : (((-481173 : ℚ) / 10000) - ((-48 : ℤ) : ℚ)) * 60 = -3519 / 500 := by norm_num
  have m1p : (((481173 : ℚ) / 10000) - ((48 : ℤ) : ℚ)) * 60 = 3519 / 500 := by norm_num
  have m2 : (((115167 : ℚ) / 10000) - ((11 : ℤ) : ℚ)) * 60 = 15501 / 500 := by norm_num
  have f1 : formatFixed (-3519 / 500) 4 7 = "-7.0380" := by
    have h : roundHalfEven ((-3519 / 500 : ℚ) * 10 ^ 4) = -70380 := by norm_num [roundHalfEven]
    rw [formatFixed, h, if_pos (show (-3519 / 500 : ℚ) < 0 by norm_num)]
    decide
  have f1p : formatFixed (3519 / 500) 4 7 = "07.0380" := by
    have h : roundHalfEven ((3519 / 500 : ℚ) * 10 ^ 4) = 70380 := by norm_num [roundHalfEven]
    rw [formatFixed, h, if_neg (show ¬(3519 / 500 : ℚ) < 0 by norm_num)]
    decide
  have f2 : formatFixed (15501 / 500) 4 7 = "31.0020" := by
    have h : roundHalfEven ((15501 / 500 : ℚ) * 10 ^ 4) = 310020 := by norm_num [roundHalfEven]
    rw [formatFixed, h, if_neg (show ¬(15501 / 500 : ℚ) < 0 by norm_num)]
    decide
  have f3 : formatFixed ((2727 : ℚ) / 5) 1 0 = "545.4" := by
    have h : roundHalfEven ((2727 / 5 : ℚ) * 10 ^ 1) = 5454 := by norm_num [roundHalfEven]
    rw [formatFixed, h, if_neg (show ¬(2727 / 5 : ℚ) < 0 by norm_num)]
    decide
  refine ⟨?_, by decide, ?_, ?_⟩
  · simp only [NMEAGenerator.generate_gga_sentence]
    rw [t1, m1, f1, if_neg (show ¬(0 : ℚ) ≤ -481173 / 10000 by norm_num), habs, t2, m2, f2,
      if_pos (show (0 : ℚ) ≤ 115167 / 10000 by norm_num), f3]
    decide
  · simp only [NMEAGenerator.generate_gga_sentence]
    rw [t1p, m1p, f1p, if_pos (show (0 : ℚ) ≤ 481173 / 10000 by norm_num), habs, t2, m2, f2,
      if_pos (show (0 : ℚ) ≤ 115167 / 10000 by norm_num), f3]
    decide
  · have hd : ("4807.0380" : String).data = ['4', '8', '0', '7', '.', '0', '3', '8', '0'] := rfl
    have d4 : digitVal '4' = some 4 := by decide
    have d8 : digitVal '8' = some 8 := by decide
    have d0 : digitVal '0' = some 0 := by decide
    have d7 : digitVal '7' = some 7 := by decide
    have d3 : digitVal '3' = some 3 := by decide
    have n0 : decide ('0' = '.') = false := by decide
    have n7 : decide ('7' = '.') = false := by decide
    have n3 : decide ('3' = '.') = false := by decide
    have n8 : decide ('8' = '.') = false := by decide
    have ndot : decide ('.' = '.') = true := by decide
    have hns : ("N" : String) = "S" ↔ False := by simp
    rw [parseLatDDMM]
    simp only [hd]
    norm_num [parseDecFrac, natOfDigits, List.takeWhile, List.dropWhile, d4, d8, d0, d7, d3,
      n0, n7, n3, n8, ndot, hns]

/-- C2: for every non-empty chunk, `is_rtcm_data` is true exactly when
the first byte is the RTCM preamble `0xD3`, and
`read_rtcm_and_send_to_gnss` hands the identical chunk to
`send_rtcm_to_gnss` whatever the classification and whatever the RTCM
decode outcome (`parseRtcm` is arbitrary). -/
theorem is_rtcm_data_and_forward (chunk : List Nat) (h : chunk ≠ [])
    (st : NtripClient.ClientState) (parseRtcm : List Nat → Option Nat)
    (out : NtripClient.SendOutcome) :
    (NtripClient.is_rtcm_data chunk = some true ↔
      chunk.headD 0 = NtripClient.RTCM_DATA_PREAMBLE) ∧
    ∃ r, NtripClient.read_rtcm_and_send_to_gnss st (.ok chunk) parseRtcm out = .ok r ∧
      r.sentToGnss = some chunk := by
  obtain ⟨b, rest, rfl⟩ : ∃ b rest, chunk = b :: rest := by
    cases chunk with
    | nil => exact absurd rfl h
    | cons b rest => exact ⟨b, rest, rfl⟩
  refine ⟨by simp [NtripClient.is_rtcm_data], ⟨_, rfl, rfl⟩⟩

/-- C2 witness: a concrete three-byte RTCM chunk is forwarded verbatim. -/
theorem is_rtcm_data_and_forward_witness :
    ∃ r, NtripClient.read_rtcm_and_send_to_gnss NtripClient.initState (.ok [0xD3, 0, 0])
        (fun _ => none) .ok = .ok r ∧ r.sentToGnss = some [0xD3, 0, 0] :=
  (is_rtcm_data_and_forward [0xD3, 0, 0] (by decide) NtripClient.initState
    (fun _ => none) .ok).2

/-- C9: `send_rtcm_to_gnss` never raises (it is total) and returns the
state unchanged in every branch — socket present or absent, send
successful, timed out or failed — so the connection flags and the RTCM
counters keep their values and no session is marked disconnected. -/
theorem send_rtcm_to_gnss_preserves_state (st : NtripClient.ClientState)
    (bytes : List Nat) (out : NtripClient.SendOutcome) :
    (NtripClient.send_rtcm_to_gnss st bytes out).1 = st := by
  cases hg : st.gnss_socket <;> cases out <;> simp [NtripClient.send_rtcm_to_gnss, hg]

/-- C8: in one relay-loop iteration, the fall-through to the correction
read happens exactly when, at the read decision point (after any
reconnect attempt of this iteration), `ntrip_connected`,
`latest_nmea_data_valid` and `nmea_request_sent` are all true —
equivalently, when the caster was already connected or the reconnect
succeeded, and both flags were true; in every other case the iteration
pauses (`time.sleep(PAUSE_DURATION)`) and retries without reading.  The
gate never changes the two flags. -/
theorem run_iteration_gate_spec (st : NtripClient.ClientState) (connectOk : Bool) :
    ((NtripClient.run_iteration_gate st connectOk).2 = .read ↔
      ((NtripClient.run_iteration_gate st connectOk).1.ntrip_connected = true ∧
       (NtripClient.run_iteration_gate st connectOk).1.latest_nmea_data_valid = true ∧
       (NtripClient.run_iteration_gate st connectOk).1.nmea_request_sent = true)) ∧
    ((NtripClient.run_iteration_gate st connectOk).2 = .read ↔
      ((st.ntrip_connected || connectOk) = true ∧ st.latest_nmea_data_valid = true ∧
        st.nmea_request_sent = true)) ∧
    ((NtripClient.run_iteration_gate st connectOk).1.latest_nmea_data_valid =
        st.latest_nmea_data_valid ∧
      (NtripClient.run_iteration_gate st connectOk).1.nmea_request_sent =
        st.nmea_request_sent) ∧
    ((NtripClient.run_iteration_gate st connectOk).2 = .read ∨
      (NtripClient.run_iteration_gate st connectOk).2 = .pause) := by
  cases hc : st.ntrip_connected <;> cases hok : connectOk <;>
    cases hv : st.latest_nmea_data_valid <;> cases hs : st.nmea_request_sent <;>
    simp [NtripClient.run_iteration_gate, NtripClient.connect_ntrip_server, hc, hok, hv, hs]

/-- C3 counterexample: a non-timeout I/O error (e.g. a connection reset)
raised by the caster-socket `recv` inside `read_rtcm_and_send_to_gnss`
is not caught — only `socket.timeout` is — so it propagates out of the
relay loop (nothing in `run`'s `while True` catches `OSError`) and the
process crashes, refuting the claim that every steady-state I/O error is
caught. -/
theorem relay_read_oserror_crash_cex :
    NtripClient.read_rtcm_and_send_to_gnss NtripClient.initState .oserror
      (fun _ => none) .ok = .error .osError := rfl

/-- C3 (amended): steady-state I/O error handling.  A caster-read
timeout is caught and marks the caster session disconnected; a
caster-read non-timeout error propagates (crash).  A receiver-read
timeout is caught; a receiver-read non-timeout error is caught when an
earlier iteration bound the loop variable `message`, and raises
`NameError` in the handler itself when none did (crashing the telemetry
loop).  Send failures on the receiver socket are caught and change no
state; send failures on the caster upload are caught and mark the caster
session disconnected.  In every caught case the loop continues. -/
theorem steady_state_io_spec (st : NtripClient.ClientState)
    (parseRtcm : List Nat → Option Nat) (out : NtripClient.SendOutcome)
    (cfg : NtripClient.Config) (t : String) (upOut : NtripClient.SendOutcome) :
    (NtripClient.read_rtcm_and_send_to_gnss st .timeout parseRtcm out =
      .ok ⟨{ st with ntrip_connected := false }, none⟩) ∧
    (NtripClient.read_rtcm_and_send_to_gnss st .oserror parseRtcm out =
      .error .osError) ∧
    (NtripClient.read_nmea_and_send_to_server cfg t st .timeout upOut = .ok st) ∧
    (st.lastMessage ≠ none →
      NtripClient.read_nmea_and_send_to_server cfg t st .oserror upOut = .ok st) ∧
    (st.gnss_socket = true → st.lastMessage = none →
      NtripClient.read_nmea_and_send_to_server cfg t st .oserror upOut =
        .error .nameError) ∧
    (∀ bytes, (NtripClient.send_rtcm_to_gnss st bytes out).1 = st) ∧
    (∀ s, st.ntrip_connected = true → out ≠ .ok →
      NtripClient.send_nmea_to_ntrip_server st s out =
        { st with nmea_request_sent := false, ntrip_connected := false,
                  lastUploadOk := some false }) := by
  refine ⟨rfl, rfl, ?_, ?_, ?_, ?_, ?_⟩
  · cases hg : st.gnss_socket <;> simp [NtripClient.read_nmea_and_send_to_server, hg]
  · intro hm
    cases hg : st.gnss_socket
    · simp [NtripClient.read_nmea_and_send_to_server, hg]
    · rcases hm2 : st.lastMessage with _ | m
      · exact absurd hm2 hm
      · simp [NtripClient.read_nmea_and_send_to_server, hg, hm2]
  · intro hg hm
    simp [NtripClient.read_nmea_and_send_to_server, hg, hm]
  · intro bytes
    cases hg : st.gnss_socket <;> cases out <;> simp [NtripClient.send_rtcm_to_gnss, hg]
  · intro s hc hout
    cases out <;> simp [NtripClient.send_nmea_to_ntrip_server, hc] <;> simp at hout

/-- C3 witness: the amended theorem applied to a concrete state with a
receiver socket but no previously bound `message`, where a non-timeout
receiver-read error raises `NameError`. -/
theorem steady_state_io_spec_witness :
    NtripClient.read_nmea_and_send_to_server ⟨false, 0, 0, 0⟩ ""
      { NtripClient.initState with gnss_socket := true } .oserror .ok =
      .error .nameError := by
  have h := (steady_state_io_spec { NtripClient.initState with gnss_socket := true }
    (fun _ => none) .ok ⟨false, 0, 0, 0⟩ "" .ok).2.2.2.2.1
  exact h rfl rfl

/-- Helper: `send_nmea_to_ntrip_server` does exactly one of three
things, by connection state and write outcome. -/
theorem send_nmea_cases (st : NtripClient.ClientState) (s : String)
    (out : NtripClient.SendOutcome) :
    (st.ntrip_connected = false ∧ NtripClient.send_nmea_to_ntrip_server st s out = st) ∨
    (st.ntrip_connected = true ∧ out = .ok ∧
      NtripClient.send_nmea_to_ntrip_server st s out =
        { st with nmea_request_sent := true, lastUploadOk := some true }) ∨
    (st.ntrip_connected = true ∧ out ≠ .ok ∧
      NtripClient.send_nmea_to_ntrip_server st s out =
        { st with nmea_request_sent := false, ntrip_connected := false,
                  lastUploadOk := some false }) := by
  cases hc : st.ntrip_connected <;> cases out <;>
    simp [NtripClient.send_nmea_to_ntrip_server, hc]

/-- Defining equation of `processBinaryMsgs` on a cons cell. -/
theorem processBinaryMsgs_cons (st : NtripClient.ClientState) (m : List Nat)
    (rest : List (List Nat)) :
    NtripClient.processBinaryMsgs st (m :: rest) =
      match NtripClient.parse_novatel_binary m with
      | .error e => .error e
      | .ok _ => NtripClient.processBinaryMsgs st rest := rfl

/-- Helper: the binary-logging loop never changes the state. -/
theorem processBinaryMsgs_ok (st st' : NtripClient.ClientState) (l : List (List Nat))
    (h : NtripClient.processBinaryMsgs st l = .ok st') : st' = st := by
  induction l with
  | nil => exact (Except.ok.inj h).symm
  | cons m rest ih =>
    rw [processBinaryMsgs_cons] at h
    rcases hp : NtripClient.parse_novatel_binary m with e | ev <;> rw [hp] at h
    · simp at h
    · exact ih h

/-- Helper: `send_rtcm_to_gnss` returns its input state. -/
theorem send_rtcm_to_gnss_fst (st : NtripClient.ClientState) (bytes : List Nat)
    (out : NtripClient.SendOutcome) :
    (NtripClient.send_rtcm_to_gnss st bytes out).1 = st := by
  cases hg : st.gnss_socket <;> cases out <;> simp [NtripClient.send_rtcm_to_gnss, hg]

/-- Helper: every state a telemetry-loop iteration can return is either
the input state with only `latest_nmea_data_valid`/`lastMessage`
adjusted, or the result of `send_nmea_to_ntrip_server` on such a
state. -/
theorem read_nmea_result_shape (cfg : NtripClient.Config) (t : String)
    (st st' : NtripClient.ClientState) (recv : NtripClient.RecvOutcome)
    (upOut : NtripClient.SendOutcome)
    (h : NtripClient.read_nmea_and_send_to_server cfg t st recv upOut = .ok st') :
    (∃ v lm, st' = { st with latest_nmea_data_valid := v, lastMessage := lm }) ∨
    (∃ v lm s, st' = NtripClient.send_nmea_to_ntrip_server
        { st with latest_nmea_data_valid := v, lastMessage := lm } s upOut) := by
  simp only [NtripClient.read_nmea_and_send_to_server] at h
  split at h
  · simp only [Except.ok.injEq] at h
    exact Or.inl ⟨st.latest_nmea_data_valid, st.lastMessage, h.symm⟩
  · split at h
    · simp only [Except.ok.injEq] at h
      exact Or.inl ⟨st.latest_nmea_data_valid, st.lastMessage, h.symm⟩
    · split at h
      · simp at h
      · simp only [Except.ok.injEq] at h
        exact Or.inl ⟨st.latest_nmea_data_valid, st.lastMessage, h.symm⟩
    · split at h
      · simp only [Except.ok.injEq] at h
        exact Or.inl ⟨st.latest_nmea_data_valid, _, h.symm⟩
      · split at h
        · simp at h
        · rcases processBinaryMsgs_ok _ _ _ h with rfl
          rename_i heq
          split at heq
          · simp only [Except.ok.injEq] at heq
            subst heq
            exact Or.inl ⟨_, _, rfl⟩
          · split at heq
            · simp only [Except.ok.injEq] at heq
              subst heq
              exact Or.inr ⟨_, _, _, rfl⟩
            · split at heq
              · simp at heq
              · split at heq
                · simp only [Except.ok.injEq] at heq
                  subst heq
                  exact Or.inr ⟨_, _, _, rfl⟩
                · simp only [Except.ok.injEq] at heq
                  subst heq
                  exact Or.inl ⟨_, _, rfl⟩

/-- Helper: a successful relay-loop read preserves `nmea_request_sent`
and the ghost upload record. -/
theorem relay_sent_preserved (st : NtripClient.ClientState)
    (recv : NtripClient.RecvOutcome) (p : List Nat → Option Nat)
    (out : NtripClient.SendOutcome) (r : NtripClient.RelayOut)
    (h : NtripClient.read_rtcm_and_send_to_gnss st recv p out = .ok r) :
    r.state.nmea_request_sent = st.nmea_request_sent ∧
    r.state.lastUploadOk = st.lastUploadOk := by
  simp only [NtripClient.read_rtcm_and_send_to_gnss] at h
  split at h
  · simp at h
  · simp only [Except.ok.injEq] at h
    rw [← h]
    exact ⟨rfl, rfl⟩
  · split at h
    · simp only [Except.ok.injEq] at h
      rw [← h]
      exact ⟨rfl, rfl⟩
    · simp only [Except.ok.injEq] at h
      rw [← h]
      simp only [send_rtcm_to_gnss_fst]
      split
      · split <;> exact ⟨rfl, rfl⟩
      · exact ⟨rfl, rfl⟩

/-- Helper: `nmea_request_sent = true` implies the most recent fix
upload succeeded, in every reachable state. -/
theorem reachable_sent_implies_upload_ok (st : NtripClient.ClientState)
    (h : NtripClient.Reachable st) :
    st.nmea_request_sent = true → st.lastUploadOk = some true := by
  induction h with
  | init => intro hs; simp [NtripClient.initState] at hs
  | step hr hstep ih =>
    rename_i st1 st2 e
    cases e with
    | connectGnss =>
      simp only [NtripClient.stepRun, Except.ok.injEq] at hstep
      rw [← hstep]
      exact ih
    | connectNtrip ok =>
      simp only [NtripClient.stepRun, Except.ok.injEq] at hstep
      rw [← hstep]
      cases ok <;> simp [NtripClient.connect_ntrip_server] <;> exact ih
    | disconnectNtrip =>
      simp only [NtripClient.stepRun, Except.ok.injEq] at hstep
      rw [← hstep]
      simp [NtripClient.disconnect_ntrip_server]
      exact ih
    | relay recv p out =>
      simp only [NtripClient.stepRun] at hstep
      rcases hread : NtripClient.read_rtcm_and_send_to_gnss st1 recv p out with e' | r <;>
        rw [hread] at hstep
      · simp [Except.map] at hstep
      · simp only [Except.map, Except.ok.injEq] at hstep
        rw [← hstep]
        obtain ⟨h1, h2⟩ := relay_sent_preserved st1 recv p out r hread
        rw [h1, h2]
        exact ih
    | telemetry cfg t recv upOut =>
      simp only [NtripClient.stepRun] at hstep
      rcases read_nmea_result_shape cfg t st1 st2 recv upOut hstep with ⟨v, lm, rfl⟩ | ⟨v, lm, s, rfl⟩
      · exact ih
      · rcases send_nmea_cases { st1 with latest_nmea_data_valid := v, lastMessage := lm }
            s upOut with ⟨hc, he⟩ | ⟨hc, ho, he⟩ | ⟨hc, ho, he⟩ <;> rw [he]
        · exact ih
        · intro _; rfl
        · intro hs; simp at hs

/-- C10: `nmea_request_sent` starts false and is written only by
`send_nmea_to_ntrip_server`: it becomes true exactly when the fix-upload
write succeeds, becomes false — simultaneously with `ntrip_connected` —
when the write raises an I/O error, and is left unchanged when the
caster session is not connected; caster connect/disconnect, receiver
connect, relay-loop reads, and telemetry iterations run while the caster
is disconnected all preserve it.  Consequently in every reachable state
where it is true the most recent upload attempt succeeded (ghost field
`lastUploadOk`), in particular whenever the relay-loop gate falls
through to a correction read. -/
theorem nmea_request_sent_single_writer :
    (NtripClient.initState.nmea_request_sent = false) ∧
    (∀ (st : NtripClient.ClientState) s out, st.ntrip_connected = false →
      NtripClient.send_nmea_to_ntrip_server st s out = st) ∧
    (∀ (st : NtripClient.ClientState) s, st.ntrip_connected = true →
      NtripClient.send_nmea_to_ntrip_server st s .ok =
        { st with nmea_request_sent := true, lastUploadOk := some true }) ∧
    (∀ (st : NtripClient.ClientState) s out, st.ntrip_connected = true → out ≠ .ok →
      NtripClient.send_nmea_to_ntrip_server st s out =
        { st with nmea_request_sent := false, ntrip_connected := false,
                  lastUploadOk := some false }) ∧
    (∀ (st : NtripClient.ClientState) ok,
      (NtripClient.connect_ntrip_server st ok).nmea_request_sent = st.nmea_request_sent) ∧
    (∀ st : NtripClient.ClientState,
      (NtripClient.disconnect_ntrip_server st).nmea_request_sent = st.nmea_request_sent) ∧
    (∀ st : NtripClient.ClientState,
      (NtripClient.connect_to_gnss st).nmea_request_sent = st.nmea_request_sent) ∧
    (∀ (st : NtripClient.ClientState) recv p out r,
      NtripClient.read_rtcm_and_send_to_gnss st recv p out = .ok r →
      r.state.nmea_request_sent = st.nmea_request_sent) ∧
    (∀ cfg t (st : NtripClient.ClientState) recv upOut st', st.ntrip_connected = false →
      NtripClient.read_nmea_and_send_to_server cfg t st recv upOut = .ok st' →
      st'.nmea_request_sent = st.nmea_request_sent) ∧
    (∀ st : NtripClient.ClientState, NtripClient.Reachable st →
      st.nmea_request_sent = true → st.lastUploadOk = some true) ∧
    (∀ (st : NtripClient.ClientState) cOk, NtripClient.Reachable st →
      (NtripClient.run_iteration_gate st cOk).2 = .read →
      st.lastUploadOk = some true) := by
  have hgate : ∀ (st : NtripClient.ClientState) (cOk : Bool),
      (NtripClient.run_iteration_gate st cOk).2 = .read → st.nmea_request_sent = true := by
    intro st cOk
    cases hc : st.ntrip_connected <;> cases hok : cOk <;>
      cases hv : st.latest_nmea_data_valid <;> cases hs : st.nmea_request_sent <;>
      simp [NtripClient.run_iteration_gate, NtripClient.connect_ntrip_server, hc, hok, hv, hs]
  refine ⟨rfl, ?_, ?_, ?_, ?_, ?_, ?_, ?_, ?_, ?_, ?_⟩
  · intro st s out hc
    simp [NtripClient.send_nmea_to_ntrip_server, hc]
  · intro st s hc
    simp [NtripClient.send_nmea_to_ntrip_server, hc]
  · intro st s out hc hout
    cases out <;> simp [NtripClient.send_nmea_to_ntrip_server, hc] <;> simp at hout
  · intro st ok
    cases ok <;> simp [NtripClient.connect_ntrip_server]
  · intro st
    simp [NtripClient.disconnect_ntrip_server]
  · intro st
    simp [NtripClient.connect_to_gnss]
  · intro st recv p out r h
    exact (relay_sent_preserved st recv p out r h).1
  · intro cfg t st recv upOut st' hc h
    rcases read_nmea_result_shape cfg t st st' recv upOut h with ⟨v, lm, rfl⟩ | ⟨v, lm, s, rfl⟩
    · rfl
    · rcases send_nmea_cases { st with latest_nmea_data_valid := v, lastMessage := lm }
          s upOut with ⟨hc2, he⟩ | ⟨hc2, ho, he⟩ | ⟨hc2, ho, he⟩
      · rw [he]
      · exact absurd hc2 (by simp [hc])
      · exact absurd hc2 (by simp [hc])
  · exact fun st h => reachable_sent_implies_upload_ok st h
  · intro st cOk hr hread
    exact reachable_sent_implies_upload_ok st hr (hgate st cOk hread)

/-- C10 witness: a concrete reachable state — receiver connected, caster
connected, one valid fix relayed with a successful upload — at which the
relay-loop gate reads and the theorem yields a recorded successful
upload. -/
theorem nmea_request_sent_single_writer_witness :
    demoState.lastUploadOk = some true := by
  have h1 : NtripClient.stepRun NtripClient.initState .connectGnss =
      .ok (NtripClient.connect_to_gnss NtripClient.initState) := rfl
  have h2 : NtripClient.stepRun (NtripClient.connect_to_gnss NtripClient.initState)
      (.connectNtrip true) =
      .ok (NtripClient.connect_ntrip_server
        (NtripClient.connect_to_gnss NtripClient.initState) true) := rfl
  have h3 : NtripClient.stepRun (NtripClient.connect_ntrip_server
        (NtripClient.connect_to_gnss NtripClient.initState) true)
      (.telemetry ⟨true, 0, 0, 0⟩ "" (.ok demoGga) .ok) = .ok demoState := by rfl
  have hreach : NtripClient.Reachable demoState :=
    .step (.step (.step .init h1) h2) h3
  exact (nmea_request_sent_single_writer).2.2.2.2.2.2.2.2.2.2 demoState true hreach (by decide)

/-- Defining equation of `findFromAux` at zero fuel. -/
theorem findFromAux_zero (data pat : List Nat) (i : Nat) :
    findFromAux data pat i 0 = none := rfl

/-- Defining equation of `findFromAux` at positive fuel. -/
theorem findFromAux_succ (data pat : List Nat) (i fuel : Nat) :
    findFromAux data pat i (fuel + 1) =
      if pat.isPrefixOf (data.drop i) then some i
      else findFromAux data pat (i + 1) fuel := rfl

/-- Defining equation of `splitSegsAux` at zero fuel. -/
theorem splitSegsAux_zero (data : List Nat) (i : Nat) :
    NtripClient.splitSegsAux data 0 i = [] := rfl

/-- Defining equation of `splitSegsAux` at positive fuel. -/
theorem splitSegsAux_succ (data : List Nat) (fuel i : Nat) :
    NtripClient.splitSegsAux data (fuel + 1) i =
      if i < data.length then
        if NtripClient.binary_header.isPrefixOf (data.drop i) then
          ⟨true, i, NtripClient.binEnd data i⟩ ::
            NtripClient.splitSegsAux data fuel (NtripClient.binEnd data i)
        else if NtripClient.ascii_start.isPrefixOf (data.drop i) then
          ⟨false, i, NtripClient.ascEnd data i⟩ ::
            NtripClient.splitSegsAux data fuel (NtripClient.ascEnd data i)
        else NtripClient.splitSegsAux data fuel (i + 1)
      else [] := rfl

/-- Defining equation of `splitDataAux` at zero fuel. -/
theorem splitDataAux_zero (data : List Nat) (i : Nat) :
    NtripClient.splitDataAux data 0 i = ([], []) := rfl

/-- Defining equation of `splitDataAux` at positive fuel. -/
theorem splitDataAux_succ (data : List Nat) (fuel i : Nat) :
    NtripClient.splitDataAux data (fuel + 1) i =
      if i < data.length then
        if NtripClient.binary_header.isPrefixOf (data.drop i) then
          ((NtripClient.splitDataAux data fuel (NtripClient.binEnd data i)).1,
            pySlice data i (NtripClient.binEnd data i) ::
              (NtripClient.splitDataAux data fuel (NtripClient.binEnd data i)).2)
        else if NtripClient.ascii_start.isPrefixOf (data.drop i) then
          (pySlice data i (NtripClient.ascEnd data i) ::
              (NtripClient.splitDataAux data fuel (NtripClient.ascEnd data i)).1,
            (NtripClient.splitDataAux data fuel (NtripClient.ascEnd data i)).2)
        else NtripClient.splitDataAux data fuel (i + 1)
      else ([], []) := rfl

/-- An occurrence of a nonempty pattern at `i` fits in the buffer. -/
theorem occursAt_bound {data pat : List Nat} {i : Nat} (hp : 0 < pat.length)
    (h : pat.isPrefixOf (data.drop i) = true) : i + pat.length ≤ data.length := by
  have hlen : pat.length ≤ data.length - i := by
    simpa using (List.isPrefixOf_iff_prefix.mp h).length_le
  omega

/-- What `findFromAux` returning `some j` means: `j` is in range, the
pattern occurs at `j`, and at no earlier index in range. -/
theorem findFromAux_some (data pat : List Nat) :
    ∀ fuel i j, findFromAux data pat i fuel = some j →
      i ≤ j ∧ j < i + fuel ∧ pat.isPrefixOf (data.drop j) = true ∧
      ∀ k, i ≤ k → k < j → pat.isPrefixOf (data.drop k) = false := by
  intro fuel
  induction fuel with
  | zero =>
    intro i j h
    rw [findFromAux_zero] at h
    exact absurd h (by simp)
  | succ fuel ih =>
    intro i j h
    rw [findFromAux_succ] at h
    by_cases hp : pat.isPrefixOf (data.drop i) = true
    · rw [if_pos hp] at h
      obtain rfl : i = j := by simpa using h
      exact ⟨le_refl i, by omega, hp, fun k h1 h2 => absurd (lt_of_le_of_lt h1 h2) (lt_irrefl i)⟩
    · rw [if_neg hp] at h
      obtain ⟨h1, h2, h3, h4⟩ := ih (i + 1) j h
      refine ⟨by omega, by omega, h3, ?_⟩
      intro k hk1 hk2
      rcases Nat.eq_or_lt_of_le hk1 with rfl | hlt
      · exact Bool.eq_false_iff.mpr hp
      · exact h4 k (by omega) hk2

/-- What `findFromAux` returning `none` means: no occurrence in range. -/
theorem findFromAux_none (data pat : List Nat) :
    ∀ fuel i, findFromAux data pat i fuel = none →
      ∀ k, i ≤ k → k < i + fuel → pat.isPrefixOf (data.drop k) = false := by
  intro fuel
  induction fuel with
  | zero => intro i _ k h1 h2; omega
  | succ fuel ih =>
    intro i h k h1 h2
    rw [findFromAux_succ] at h
    by_cases hp : pat.isPrefixOf (data.drop i) = true
    · rw [if_pos hp] at h
      exact absurd h (by simp)
    · rw [if_neg hp] at h
      rcases Nat.eq_or_lt_of_le h1 with rfl | hlt
      · exact Bool.eq_false_iff.mpr hp
      · exact ih (i + 1) h k (by omega) (by omega)

/-- What `findFrom data pat i = some j` means. -/
theorem findFrom_some {data pat : List Nat} {i j : Nat}
    (h : findFrom data pat i = some j) :
    i ≤ j ∧ pat.isPrefixOf (data.drop j) = true ∧
    ∀ k, i ≤ k → k < j → pat.isPrefixOf (data.drop k) = false := by
  obtain ⟨h1, _, h3, h4⟩ := findFromAux_some data pat (data.length - i) i j h
  exact ⟨h1, h3, h4⟩

/-- What `findFrom data pat i = none` means, for nonempty patterns: no
occurrence at any index at or after `i`. -/
theorem findFrom_none {data pat : List Nat} {i : Nat} (hp : 0 < pat.length)
    (h : findFrom data pat i = none) :
    ∀ k, i ≤ k → pat.isPrefixOf (data.drop k) = false := by
  intro k hk
  by_cases hkl : k < data.length
  · exact findFromAux_none data pat (data.length - i) i h k hk (by omega)
  · have hdrop : data.drop k = [] := List.drop_eq_nil_of_le (by omega)
    rw [hdrop]
    cases pat with
    | nil => simp at hp
    | cons a l => rfl

/-- Range of `(findFrom data pat i).getD data.length` for a nonempty
pattern and in-range start. -/
theorem findFrom_getD_bounds (data pat : List Nat) (hp : 0 < pat.length) (i : Nat)
    (hi : i ≤ data.length) :
    i ≤ (findFrom data pat i).getD data.length ∧
    (findFrom data pat i).getD data.length ≤ data.length := by
  rcases h : findFrom data pat i with _ | j
  · simpa using hi
  · obtain ⟨h1, h2, -⟩ := findFrom_some h
    have h3 := occursAt_bound hp h2
    simp only [Option.getD_some]
    exact ⟨h1, by omega⟩

/-- The binary frame end lies in `[i+4, length]` when a header occurs at
`i`. -/
theorem binEnd_bounds (data : List Nat) (i : Nat)
    (h : NtripClient.binary_header.isPrefixOf (data.drop i) = true) :
    i + 4 ≤ NtripClient.binEnd data i ∧ NtripClient.binEnd data i ≤ data.length := by
  have hi4 : i + 4 ≤ data.length := by
    have := @occursAt_bound _ NtripClient.binary_header _ (by decide) h
    simpa using this
  have hb := findFrom_getD_bounds data NtripClient.binary_header (by decide) (i + 4) (by omega)
  have ha := findFrom_getD_bounds data NtripClient.ascii_start (by decide) (i + 4) (by omega)
  have hE : NtripClient.binEnd data i =
      min ((findFrom data NtripClient.binary_header (i + 4)).getD data.length)
          ((findFrom data NtripClient.ascii_start (i + 4)).getD data.length) := rfl
  rw [hE]
  omega

/-- The ASCII sentence end lies in `(i, length]` when `$GP` occurs at
`i`. -/
theorem ascEnd_bounds (data : List Nat) (i : Nat)
    (h : NtripClient.ascii_start.isPrefixOf (data.drop i) = true) :
    i < NtripClient.ascEnd data i ∧ NtripClient.ascEnd data i ≤ data.length := by
  have hi3 : i + 3 ≤ data.length := by
    have := @occursAt_bound _ NtripClient.ascii_start _ (by decide) h
    simpa using this
  rcases hc : findFrom data NtripClient.crlfBytes i with _ | j
  · have hE : NtripClient.ascEnd data i = data.length := by rw [NtripClient.ascEnd, hc]
    rw [hE]
    exact ⟨by omega, le_refl _⟩
  · have hE : NtripClient.ascEnd data i = j + 2 := by
      rw [NtripClient.ascEnd, hc]
      rfl
    obtain ⟨h1, h2, -⟩ := findFrom_some hc
    have hb := @occursAt_bound _ NtripClient.crlfBytes _ (by decide) h2
    have hcl : NtripClient.crlfBytes.length = 2 := rfl
    rw [hcl] at hb
    rw [hE]
    exact ⟨by omega, by omega⟩

/-- Master invariant of the `split_data` scan from index `i` with
adequate fuel: every recorded segment lies in `[i, length)` and is
well-formed for its kind, the segments are ordered and pairwise
disjoint, every uncovered position in range matches neither marker, and
`splitDataAux` returns exactly the byte slices of the recorded
segments. -/
theorem splitScan_spec (data : List Nat) :
    ∀ fuel i, data.length ≤ i + fuel →
      (∀ g ∈ NtripClient.splitSegsAux data fuel i,
          i ≤ g.s ∧ g.s < g.e ∧ g.e ≤ data.length ∧
          (g.kind = true →
            NtripClient.binary_header.isPrefixOf (data.drop g.s) = true ∧
            g.e = NtripClient.binEnd data g.s) ∧
          (g.kind = false →
            NtripClient.ascii_start.isPrefixOf (data.drop g.s) = true ∧
            g.e = NtripClient.ascEnd data g.s)) ∧
      List.Pairwise (fun a b => a.e ≤ b.s) (NtripClient.splitSegsAux data fuel i) ∧
      (∀ p, i ≤ p → p < data.length →
        ¬ NtripClient.Covered (NtripClient.splitSegsAux data fuel i) p →
        NtripClient.binary_header.isPrefixOf (data.drop p) = false ∧
        NtripClient.ascii_start.isPrefixOf (data.drop p) = false) ∧
      NtripClient.splitDataAux data fuel i =
        (((NtripClient.splitSegsAux data fuel i).filter (fun g => !g.kind)).map
            (fun g => pySlice data g.s g.e),
          ((NtripClient.splitSegsAux data fuel i).filter (fun g => g.kind)).map
            (fun g => pySlice data g.s g.e)) := by
  intro fuel
  induction fuel with
  | zero =>
    intro i hi
    rw [splitSegsAux_zero, splitDataAux_zero]
    refine ⟨by simp, by simp, ?_, rfl⟩
    intro p hp1 hp2 _
    omega
  | succ fuel ih =>
    intro i hi
    by_cases hil : i < data.length
    · by_cases hbin : NtripClient.binary_header.isPrefixOf (data.drop i) = true
      · have hsegs : NtripClient.splitSegsAux data (fuel + 1) i =
            ⟨true, i, NtripClient.binEnd data i⟩ ::
              NtripClient.splitSegsAux data fuel (NtripClient.binEnd data i) := by
          rw [splitSegsAux_succ, if_pos hil, if_pos hbin]
        have hdata : NtripClient.splitDataAux data (fuel + 1) i =
            ((NtripClient.splitDataAux data fuel (NtripClient.binEnd data i)).1,
              pySlice data i (NtripClient.binEnd data i) ::
                (NtripClient.splitDataAux data fuel (NtripClient.binEnd data i)).2) := by
          rw [splitDataAux_succ, if_pos hil, if_pos hbin]
        obtain ⟨hbe1, hbe2⟩ := binEnd_bounds data i hbin
        obtain ⟨hAll, hPw, hGap, hProj⟩ := ih (NtripClient.binEnd data i) (by omega)
        rw [hsegs, hdata]
        refine ⟨?_, ?_, ?_, ?_⟩
        · intro g hg
          rcases List.mem_cons.mp hg with rfl | hg'
          · exact ⟨le_refl i, show i < NtripClient.binEnd data i by omega, hbe2,
              fun _ => ⟨hbin, rfl⟩, by simp⟩
          · obtain ⟨ha1, ha2, ha3, ha4, ha5⟩ := hAll g hg'
            exact ⟨by omega, ha2, ha3, ha4, ha5⟩
        · rw [List.pairwise_cons]
          exact ⟨fun g hg => (hAll g hg).1, hPw⟩
        · intro p hp1 hp2 hnc
          by_cases hpe : p < NtripClient.binEnd data i
          · exact absurd ⟨⟨true, i, NtripClient.binEnd data i⟩,
              List.mem_cons_self _ _, hp1, hpe⟩ hnc
          · have hnc' : ¬ NtripClient.Covered
                (NtripClient.splitSegsAux data fuel (NtripClient.binEnd data i)) p := by
              rintro ⟨g, hg, hgp⟩
              exact hnc ⟨g, List.mem_cons_of_mem _ hg, hgp⟩
            exact hGap p (by omega) hp2 hnc'
        · rw [hProj]
          simp [List.filter_cons]
      · by_cases hasc : NtripClient.ascii_start.isPrefixOf (data.drop i) = true
        · have hsegs : NtripClient.splitSegsAux data (fuel + 1) i =
              ⟨false, i, NtripClient.ascEnd data i⟩ ::
                NtripClient.splitSegsAux data fuel (NtripClient.ascEnd data i) := by
            rw [splitSegsAux_succ, if_pos hil, if_neg hbin, if_pos hasc]
          have hdata : NtripClient.splitDataAux data (fuel + 1) i =
              (pySlice data i (NtripClient.ascEnd data i) ::
                  (NtripClient.splitDataAux data fuel (NtripClient.ascEnd data i)).1,
                (NtripClient.splitDataAux data fuel (NtripClient.ascEnd data i)).2) := by
            rw [splitDataAux_succ, if_pos hil, if_neg hbin, if_pos hasc]
          obtain ⟨hae1, hae2⟩ := ascEnd_bounds data i hasc
          obtain ⟨hAll, hPw, hGap, hProj⟩ := ih (NtripClient.ascEnd data i) (by omega)
          rw [hsegs, hdata]
          refine ⟨?_, ?_, ?_, ?_⟩
          · intro g hg
            rcases List.mem_cons.mp hg with rfl | hg'
            · exact ⟨le_refl i, hae1, hae2, by simp, fun _ => ⟨hasc, rfl⟩⟩
            · obtain ⟨ha1, ha2, ha3, ha4, ha5⟩ := hAll g hg'
              exact ⟨by omega, ha2, ha3, ha4, ha5⟩
          · rw [List.pairwise_cons]
            exact ⟨fun g hg => (hAll g hg).1, hPw⟩
          · intro p hp1 hp2 hnc
            by_cases hpe : p < NtripClient.ascEnd data i
            · exact absurd ⟨⟨false, i, NtripClient.ascEnd data i⟩,
                List.mem_cons_self _ _, hp1, hpe⟩ hnc
            · have hnc' : ¬ NtripClient.Covered
                  (NtripClient.splitSegsAux data fuel (NtripClient.ascEnd data i)) p := by
                rintro ⟨g, hg, hgp⟩
                exact hnc ⟨g, List.mem_cons_of_mem _ hg, hgp⟩
              exact hGap p (by omega) hp2 hnc'
          · rw [hProj]
            simp [List.filter_cons]
        · have hsegs : NtripClient.splitSegsAux data (fuel + 1) i =
              NtripClient.splitSegsAux data fuel (i + 1) := by
            rw [splitSegsAux_succ, if_pos hil, if_neg hbin, if_neg hasc]
          have hdata : NtripClient.splitDataAux data (fuel + 1) i =
              NtripClient.splitDataAux data fuel (i + 1) := by
            rw [splitDataAux_succ, if_pos hil, if_neg hbin, if_neg hasc]
          obtain ⟨hAll, hPw, hGap, hProj⟩ := ih (i + 1) (by omega)
          rw [hsegs, hdata]
          refine ⟨?_, hPw, ?_, hProj⟩
          · intro g hg
            obtain ⟨ha1, ha2, ha3, ha4, ha5⟩ := hAll g hg
            exact ⟨by omega, ha2, ha3, ha4, ha5⟩
          · intro p hp1 hp2 hnc
            rcases Nat.eq_or_lt_of_le hp1 with rfl | hlt
            · exact ⟨Bool.eq_false_iff.mpr hbin, Bool.eq_false_iff.mpr hasc⟩
            · exact hGap p (by omega) hp2 hnc
    · have hsegs : NtripClient.splitSegsAux data (fuel + 1) i = [] := by
        rw [splitSegsAux_succ, if_neg hil]
      have hdata : NtripClient.splitDataAux data (fuel + 1) i = ([], []) := by
        rw [splitDataAux_succ, if_neg hil]
      rw [hsegs, hdata]
      refine ⟨by simp, by simp, ?_, rfl⟩
      intro p hp1 hp2 _
      omega

/-- `binEnd data i` is either the end of the buffer or the position of a
marker occurrence, and no marker occurs strictly between `i + 4` and
it. -/
theorem binEnd_char (data : List Nat) (i : Nat) :
    (NtripClient.binEnd data i = data.length ∨
      NtripClient.binary_header.isPrefixOf (data.drop (NtripClient.binEnd data i)) = true ∨
      NtripClient.ascii_start.isPrefixOf (data.drop (NtripClient.binEnd data i)) = true) ∧
    (∀ q, i + 4 ≤ q → q < NtripClient.binEnd data i →
      NtripClient.binary_header.isPrefixOf (data.drop q) = false ∧
      NtripClient.ascii_start.isPrefixOf (data.drop q) = false) := by
  have hE : NtripClient.binEnd data i =
      min ((findFrom data NtripClient.binary_header (i + 4)).getD data.length)
          ((findFrom data NtripClient.ascii_start (i + 4)).getD data.length) := rfl
  rcases hb : findFrom data NtripClient.binary_header (i + 4) with _ | jb <;>
    rcases ha : findFrom data NtripClient.ascii_start (i + 4) with _ | ja
  · have he : NtripClient.binEnd data i = data.length := by
      rw [hE, hb, ha]
      simp
    refine ⟨Or.inl he, ?_⟩
    intro q hq1 _
    exact ⟨findFrom_none (by decide) hb q hq1, findFrom_none (by decide) ha q hq1⟩
  · obtain ⟨hja1, hja2, hja3⟩ := findFrom_some ha
    have hjab := @occursAt_bound _ NtripClient.ascii_start _ (by decide) hja2
    have he : NtripClient.binEnd data i = ja := by
      rw [hE, hb, ha]
      simp only [Option.getD_none, Option.getD_some]
      omega
    rw [he]
    refine ⟨Or.inr (Or.inr hja2), ?_⟩
    intro q hq1 hq2
    exact ⟨findFrom_none (by decide) hb q hq1, hja3 q hq1 hq2⟩
  · obtain ⟨hjb1, hjb2, hjb3⟩ := findFrom_some hb
    have hjbb := @occursAt_bound _ NtripClient.binary_header _ (by decide) hjb2
    have he : NtripClient.binEnd data i = jb := by
      rw [hE, hb, ha]
      simp only [Option.getD_none, Option.getD_some]
      omega
    rw [he]
    refine ⟨Or.inr (Or.inl hjb2), ?_⟩
    intro q hq1 hq2
    exact ⟨hjb3 q hq1 hq2, findFrom_none (by decide) ha q hq1⟩
  · obtain ⟨hjb1, hjb2, hjb3⟩ := findFrom_some hb
    obtain ⟨hja1, hja2, hja3⟩ := findFrom_some ha
    have he : NtripClient.binEnd data i = min jb ja := by
      rw [hE, hb, ha]
      rfl
    rw [he]
    constructor
    · rcases le_total jb ja with hle | hle
      · exact Or.inr (Or.inl (by rw [Nat.min_eq_left hle]; exact hjb2))
      · exact Or.inr (Or.inr (by rw [Nat.min_eq_right hle]; exact hja2))
    · intro q hq1 hq2
      exact ⟨hjb3 q hq1 (by omega), hja3 q hq1 (by omega)⟩

/-- `ascEnd data i` is either two past the first CRLF occurrence at or
after `i`, or the end of the buffer when no CRLF follows. -/
theorem ascEnd_char (data : List Nat) (i : Nat) :
    (∃ j, i ≤ j ∧ NtripClient.ascEnd data i = j + 2 ∧
      NtripClient.crlfBytes.isPrefixOf (data.drop j) = true ∧
      ∀ q, i ≤ q → q < j → NtripClient.crlfBytes.isPrefixOf (data.drop q) = false) ∨
    (NtripClient.ascEnd data i = data.length ∧
      ∀ q, i ≤ q → NtripClient.crlfBytes.isPrefixOf (data.drop q) = false) := by
  rcases hc : findFrom data NtripClient.crlfBytes i with _ | j
  · exact Or.inr ⟨by rw [NtripClient.ascEnd, hc], findFrom_none (by decide) hc⟩
  · obtain ⟨h1, h2, h3⟩ := findFrom_some hc
    exact Or.inl ⟨j, h1, by rw [NtripClient.ascEnd, hc]; rfl, h2, h3⟩

/-- C4: `split_data` returns the byte slices of an ordered list of
pairwise-disjoint segments of the input, ASCII and binary projected in
order of appearance; every binary segment starts at a binary-header
occurrence and extends to just before the earlier of the next
binary-header occurrence and the next `$GP` occurrence (searching from
four bytes past its start), or to the end of the buffer; every ASCII
segment starts at a `$GP` occurrence and extends through the first
following CRLF inclusive, or to the end of the buffer when none follows
(the truncated sentence still being emitted); no byte belongs to two
segments, and every position not covered by a segment matches neither
marker (it was skipped one byte at a time). -/
theorem split_data_spec (data : List Nat) :
    ∃ segs : List NtripClient.Seg,
      ((NtripClient.split_data data).1 =
          (segs.filter (fun g => !g.kind)).map (fun g => pySlice data g.s g.e) ∧
        (NtripClient.split_data data).2 =
          (segs.filter (fun g => g.kind)).map (fun g => pySlice data g.s g.e)) ∧
      (∀ g ∈ segs, g.s < g.e ∧ g.e ≤ data.length) ∧
      List.Pairwise (fun a b => a.e ≤ b.s) segs ∧
      (∀ g ∈ segs, g.kind = true →
        NtripClient.binary_header.isPrefixOf (data.drop g.s) = true ∧
        g.s + 4 ≤ g.e ∧
        (g.e = data.length ∨
          NtripClient.binary_header.isPrefixOf (data.drop g.e) = true ∨
          NtripClient.ascii_start.isPrefixOf (data.drop g.e) = true) ∧
        ∀ q, g.s + 4 ≤ q → q < g.e →
          NtripClient.binary_header.isPrefixOf (data.drop q) = false ∧
          NtripClient.ascii_start.isPrefixOf (data.drop q) = false) ∧
      (∀ g ∈ segs, g.kind = false →
        NtripClient.ascii_start.isPrefixOf (data.drop g.s) = true ∧
        ((∃ j, g.s ≤ j ∧ g.e = j + 2 ∧
            NtripClient.crlfBytes.isPrefixOf (data.drop j) = true ∧
            ∀ q, g.s ≤ q → q < j →
              NtripClient.crlfBytes.isPrefixOf (data.drop q) = false) ∨
          (g.e = data.length ∧
            ∀ q, g.s ≤ q → NtripClient.crlfBytes.isPrefixOf (data.drop q) = false))) ∧
      (∀ p, p < data.length → ¬ NtripClient.Covered segs p →
        NtripClient.binary_header.isPrefixOf (data.drop p) = false ∧
        NtripClient.ascii_start.isPrefixOf (data.drop p) = false) := by
  obtain ⟨hAll, hPw, hGap, hProj⟩ := splitScan_spec data data.length 0 (by omega)
  refine ⟨NtripClient.splitSegsAux data data.length 0, ⟨?_, ?_⟩, ?_, hPw, ?_, ?_, ?_⟩
  · rw [NtripClient.split_data, hProj]
  · rw [NtripClient.split_data, hProj]
  · intro g hg
    obtain ⟨-, h2, h3, -, -⟩ := hAll g hg
    exact ⟨h2, h3⟩
  · intro g hg hk
    obtain ⟨-, h2, h3, h4, -⟩ := hAll g hg
    obtain ⟨ho, he⟩ := h4 hk
    obtain ⟨hc1, hc2⟩ := binEnd_char data g.s
    rw [← he] at hc1 hc2
    refine ⟨ho, ?_, hc1, hc2⟩
    have := (binEnd_bounds data g.s ho).1
    omega
  · intro g hg hk
    obtain ⟨-, -, -, -, h5⟩ := hAll g hg
    obtain ⟨ho, he⟩ := h5 hk
    rcases ascEnd_char data g.s with ⟨j, hj1, hj2, hj3, hj4⟩ | ⟨h1, h2⟩
    · exact ⟨ho, Or.inl ⟨j, hj1, by rw [he, hj2], hj3, hj4⟩⟩
    · exact ⟨ho, Or.inr ⟨by rw [he, h1], h2⟩⟩
  · intro p hp hnc
    exact hGap p (by omega) hp hnc

/-- C7 counterexample: with the 36-byte payload `c7P1bad` (which begins
with the bytes `$GP`), the demultiplexer does not return the sentence as
its single ASCII segment — the first binary frame is cut short at the
marker-like bytes inside the payload and the ASCII segment swallows the
payload tail — refuting the claim for arbitrary 36-byte payloads. -/
theorem split_data_demux_cex :
    c7P1bad.length = 36 ∧ (NtripClient.split_data c7BufBad).1 ≠ [c7Sent] := by
  refine ⟨by decide, by decide⟩

/-- Prefix testing only sees the first list when it fits inside it. -/
theorem isPrefixOf_append_left (pat X Y : List Nat) (h : pat.length ≤ X.length) :
    pat.isPrefixOf (X ++ Y) = pat.isPrefixOf X := by
  by_cases hx : pat.isPrefixOf X = true
  · rw [hx]
    rw [List.isPrefixOf_iff_prefix] at hx ⊢
    exact hx.trans (List.prefix_append X Y)
  · rw [Bool.eq_false_iff.mpr hx, Bool.eq_false_iff]
    intro hcon
    apply hx
    rw [List.isPrefixOf_iff_prefix, List.prefix_iff_eq_take] at hcon ⊢
    rw [List.take_append_of_le_length h] at hcon
    exact hcon

/-- An occurrence pins down the buffer bytes it covers. -/
theorem occ_getElem {pat l : List Nat} {q : Nat} (h : pat.isPrefixOf (l.drop q) = true)
    (k : Nat) (hk : k < pat.length) : l[q + k]? = pat[k]? := by
  rw [List.isPrefixOf_iff_prefix, List.prefix_iff_eq_take] at h
  have h2 : pat[k]? = ((l.drop q).take pat.length)[k]? := by rw [← h]
  rw [List.getElem?_take, if_pos hk, List.getElem?_drop] at h2
  exact h2.symm

/-- `findFrom` computes the least occurrence. -/
theorem findFrom_eq_some {data pat : List Nat} {i j : Nat} (hp : 0 < pat.length)
    (hij : i ≤ j) (hocc : pat.isPrefixOf (data.drop j) = true)
    (hnone : ∀ k, i ≤ k → k < j → pat.isPrefixOf (data.drop k) = false) :
    findFrom data pat i = some j := by
  rcases h : findFrom data pat i with _ | j'
  · rw [findFrom_none hp h j hij] at hocc
    exact absurd hocc (by simp)
  · obtain ⟨h1, h2, h3⟩ := findFrom_some h
    have hj : j' = j := by
      rcases Nat.lt_trichotomy j' j with hlt | heq | hgt
      · rw [hnone j' h1 hlt] at h2
        exact absurd h2 (by simp)
      · exact heq
      · rw [h3 j hij hgt] at hocc
        exact absurd hocc (by simp)
    rw [hj]

/-- `findFrom` finds nothing when there is nothing. -/
theorem findFrom_eq_none {data pat : List Nat} {i : Nat}
    (h : ∀ k, i ≤ k → pat.isPrefixOf (data.drop k) = false) :
    findFrom data pat i = none := by
  rcases hf : findFrom data pat i with _ | j
  · rfl
  · obtain ⟨h1, h2, -⟩ := findFrom_some hf
    rw [h j h1] at h2
    exact absurd h2 (by simp)

/-- `splitDataAux` is fuel-invariant once the fuel covers the remaining
buffer. -/
theorem splitDataAux_fuel (data : List Nat) :
    ∀ fuel fuel' i, data.length ≤ i + fuel → data.length ≤ i + fuel' →
      NtripClient.splitDataAux data fuel i = NtripClient.splitDataAux data fuel' i := by
  intro fuel
  induction fuel with
  | zero =>
    intro fuel' i h1 h2
    cases fuel' with
    | zero => rfl
    | succ k => rw [splitDataAux_zero, splitDataAux_succ, if_neg (by omega)]
  | succ fuel ih =>
    intro fuel' i h1 h2
    cases fuel' with
    | zero => rw [splitDataAux_zero, splitDataAux_succ, if_neg (by omega)]
    | succ k =>
      rw [splitDataAux_succ, splitDataAux_succ]
      by_cases hil : i < data.length
      · rw [if_pos hil, if_pos hil]
        by_cases hbin : NtripClient.binary_header.isPrefixOf (data.drop i) = true
        · rw [if_pos hbin, if_pos hbin]
          have hbe := binEnd_bounds data i hbin
          rw [ih k (NtripClient.binEnd data i) (by omega) (by omega)]
        · rw [if_neg hbin, if_neg hbin]
          by_cases hasc : NtripClient.ascii_start.isPrefixOf (data.drop i) = true
          · rw [if_pos hasc, if_pos hasc]
            have hae := ascEnd_bounds data i hasc
            rw [ih k (NtripClient.ascEnd data i) (by omega) (by omega)]
          · rw [if_neg hasc, if_neg hasc]
            exact ih k (i + 1) (by omega) (by omega)
      · rw [if_neg hil, if_neg hil]

/-- Length of the scenario buffer. -/
theorem c7Buf_length (P1 P2 : List Nat) (h36 : P1.length = 36) :
    (c7Buf P1 P2).length = 111 + P2.length := by
  have lS : c7Sent.length = 67 := rfl
  have lH : NtripClient.binary_header.length = 4 := rfl
  rw [c7Buf, List.length_append, List.length_append, List.length_append,
    List.length_append, lH, lS, h36]

/-- Bytes of the sentence region of the scenario buffer. -/
theorem c7Buf_getElem_S (P1 P2 : List Nat) (h36 : P1.length = 36) (m : Nat)
    (hm : m < 67) : (c7Buf P1 P2)[40 + m]? = c7Sent[m]? := by
  have l1 : (NtripClient.binary_header ++ P1).length = 40 := by
    simp [NtripClient.binary_header, h36]
  have l2 : (NtripClient.binary_header ++ P1 ++ c7Sent).length = 107 := by
    have lS : c7Sent.length = 67 := rfl
    rw [List.length_append, l1, lS]
  have l3 : (NtripClient.binary_header ++ P1 ++ c7Sent ++ NtripClient.binary_header).length
      = 111 := by
    have lH : NtripClient.binary_header.length = 4 := rfl
    rw [List.length_append, l2, lH]
  rw [c7Buf, List.getElem?_append, if_pos (by rw [l3]; omega),
    List.getElem?_append, if_pos (by rw [l2]; omega),
    List.getElem?_append, if_neg (by rw [l1]; omega), l1]
  congr 1
  omega

/-- Dropping the header-plus-first-payload prefix. -/
theorem c7Buf_drop_40 (P1 P2 : List Nat) (h36 : P1.length = 36) :
    (c7Buf P1 P2).drop 40 = c7Sent ++ (NtripClient.binary_header ++ P2) := by
  have l1 : (NtripClient.binary_header ++ P1).length = 40 := by
    simp [NtripClient.binary_header, h36]
  rw [c7Buf, show NtripClient.binary_header ++ P1 ++ c7Sent ++ NtripClient.binary_header ++ P2
      = (NtripClient.binary_header ++ P1) ++ (c7Sent ++ (NtripClient.binary_header ++ P2))
    from by simp [List.append_assoc]]
  rw [show (40 : Nat) = (NtripClient.binary_header ++ P1).length from l1.symm]
  exact List.drop_left _ _

/-- Dropping through the sentence. -/
theorem c7Buf_drop_107 (P1 P2 : List Nat) (h36 : P1.length = 36) :
    (c7Buf P1 P2).drop 107 = NtripClient.binary_header ++ P2 := by
  have l2 : (NtripClient.binary_header ++ P1 ++ c7Sent).length = 107 := by
    have lS : c7Sent.length = 67 := rfl
    have lH : NtripClient.binary_header.length = 4 := rfl
    rw [List.length_append, List.length_append, lH, lS, h36]
  rw [c7Buf, show NtripClient.binary_header ++ P1 ++ c7Sent ++ NtripClient.binary_header ++ P2
      = (NtripClient.binary_header ++ P1 ++ c7Sent) ++ (NtripClient.binary_header ++ P2)
    from by simp [List.append_assoc]]
  rw [show (107 : Nat) = (NtripClient.binary_header ++ P1 ++ c7Sent).length from l2.symm]
  exact List.drop_left _ _

/-- Dropping into the second payload. -/
theorem c7Buf_drop_P2 (P1 P2 : List Nat) (h36 : P1.length = 36) (m : Nat) :
    (c7Buf P1 P2).drop (111 + m) = P2.drop m := by
  have l3 : (NtripClient.binary_header ++ P1 ++ c7Sent ++ NtripClient.binary_header).length
      = 111 := by
    have lS : c7Sent.length = 67 := rfl
    have lH : NtripClient.binary_header.length = 4 := rfl
    rw [List.length_append, List.length_append, List.length_append, lH, lS, h36]
  rw [c7Buf, show (111 : Nat) + m
      = (NtripClient.binary_header ++ P1 ++ c7Sent ++ NtripClient.binary_header).length + m
    from by rw [l3]]
  exact List.drop_append m

/-- Dropping inside the header-plus-first-payload region. -/
theorem c7Buf_drop_le40 (P1 P2 : List Nat) (h36 : P1.length = 36) (q : Nat)
    (hq : q ≤ 40) :
    (c7Buf P1 P2).drop q =
      (NtripClient.binary_header ++ P1).drop q ++
        (c7Sent ++ (NtripClient.binary_header ++ P2)) := by
  have l1 : (NtripClient.binary_header ++ P1).length = 40 := by
    simp [NtripClient.binary_header, h36]
  rw [c7Buf, show NtripClient.binary_header ++ P1 ++ c7Sent ++ NtripClient.binary_header ++ P2
      = (NtripClient.binary_header ++ P1) ++ (c7Sent ++ (NtripClient.binary_header ++ P2))
    from by simp [List.append_assoc]]
  exact List.drop_append_of_le_length (by omega)

/-- Dropping inside the sentence region. -/
theorem c7Buf_drop_S (P1 P2 : List Nat) (h36 : P1.length = 36) (m : Nat) (hm : m ≤ 67) :
    (c7Buf P1 P2).drop (40 + m) =
      c7Sent.drop m ++ (NtripClient.binary_header ++ P2) := by
  have lS : c7Sent.length = 67 := rfl
  rw [← List.drop_drop, c7Buf_drop_40 P1 P2 h36]
  exact List.drop_append_of_le_length (by omega)

/-- Neither marker occurs strictly inside the header-plus-payload region
`[4, 40)` when the payload contains no marker (straddles into the
sentence are blocked by its leading `$`). -/
theorem c7_noP1occ (P1 P2 : List Nat) (h36 : P1.length = 36) (pat : List Nat)
    (hpat1 : ∀ j, pat.isPrefixOf (P1.drop j) = false)
    (hdollar : ∀ k, 1 ≤ k → k < pat.length → pat[k]? ≠ some 36)
    (q : Nat) (h4 : 4 ≤ q) (h40 : q < 40) :
    pat.isPrefixOf ((c7Buf P1 P2).drop q) = false := by
  have l1 : (NtripClient.binary_header ++ P1).length = 40 := by
    simp [NtripClient.binary_header, h36]
  by_cases hfit : q + pat.length ≤ 40
  · rw [c7Buf_drop_le40 P1 P2 h36 q (by omega)]
    rw [isPrefixOf_append_left _ _ _ (by rw [List.length_drop, l1]; omega)]
    have hdA : (NtripClient.binary_header ++ P1).drop (4 + (q - 4)) = P1.drop (q - 4) :=
      @List.drop_append _ NtripClient.binary_header P1 (q - 4)
    rw [show (4 : Nat) + (q - 4) = q from by omega] at hdA
    rw [hdA]
    exact hpat1 (q - 4)
  · rw [Bool.eq_false_iff]
    intro hocc
    have hbyte := occ_getElem hocc (40 - q) (by omega)
    rw [show q + (40 - q) = 40 + 0 from by omega] at hbyte
    rw [c7Buf_getElem_S P1 P2 h36 0 (by omega)] at hbyte
    have hS0 : c7Sent[0]? = some 36 := rfl
    rw [hS0] at hbyte
    exact hdollar (40 - q) (by omega) (by omega) hbyte.symm

/-- No binary header occurs inside the sentence region `[40, 107)`. -/
theorem c7_noBinS (P1 P2 : List Nat) (h36 : P1.length = 36) (q : Nat)
    (h1 : 40 ≤ q) (h2 : q < 107) :
    NtripClient.binary_header.isPrefixOf ((c7Buf P1 P2).drop q) = false := by
  rw [Bool.eq_false_iff]
  intro hocc
  have hbyte := occ_getElem hocc 0 (by decide)
  rw [Nat.add_zero, show q = 40 + (q - 40) from by omega,
    c7Buf_getElem_S P1 P2 h36 (q - 40) (by omega)] at hbyte
  have hB0 : NtripClient.binary_header[0]? = some 170 := rfl
  rw [hB0] at hbyte
  exact (by decide : ∀ m, m < 67 → c7Sent[m]? ≠ some 170) (q - 40) (by omega) hbyte

/-- No `$GP` occurs strictly inside the sentence region `(40, 107)`. -/
theorem c7_noAscS (P1 P2 : List Nat) (h36 : P1.length = 36) (q : Nat)
    (h1 : 41 ≤ q) (h2 : q < 107) :
    NtripClient.ascii_start.isPrefixOf ((c7Buf P1 P2).drop q) = false := by
  rw [Bool.eq_false_iff]
  intro hocc
  have hbyte := occ_getElem hocc 0 (by decide)
  rw [Nat.add_zero, show q = 40 + (q - 40) from by omega,
    c7Buf_getElem_S P1 P2 h36 (q - 40) (by omega)] at hbyte
  have hA0 : NtripClient.ascii_start[0]? = some 36 := rfl
  rw [hA0] at hbyte
  exact (by decide : ∀ m, m < 67 → 1 ≤ m → c7Sent[m]? ≠ some 36) (q - 40) (by omega)
    (by omega) hbyte

/-- No CRLF occurs in the sentence region before position 105. -/
theorem c7_noCrlf (P1 P2 : List Nat) (h36 : P1.length = 36) (q : Nat)
    (h1 : 40 ≤ q) (h2 : q < 105) :
    NtripClient.crlfBytes.isPrefixOf ((c7Buf P1 P2).drop q) = false := by
  rw [Bool.eq_false_iff]
  intro hocc
  have hbyte := occ_getElem hocc 0 (by decide)
  rw [Nat.add_zero, show q = 40 + (q - 40) from by omega,
    c7Buf_getElem_S P1 P2 h36 (q - 40) (by omega)] at hbyte
  have hC0 : NtripClient.crlfBytes[0]? = some 13 := rfl
  rw [hC0] at hbyte
  exact (by decide : ∀ m, m < 65 → c7Sent[m]? ≠ some 13) (q - 40) (by omega) hbyte

/-- Neither marker occurs at or after position 111 when the second
payload contains no marker. -/
theorem c7_noP2occ (P1 P2 : List Nat) (h36 : P1.length = 36) (hm2 : NoMarker P2)
    (q : Nat) (hq : 111 ≤ q) :
    NtripClient.binary_header.isPrefixOf ((c7Buf P1 P2).drop q) = false ∧
    NtripClient.ascii_start.isPrefixOf ((c7Buf P1 P2).drop q) = false := by
  rw [show q = 111 + (q - 111) from by omega, c7Buf_drop_P2 P1 P2 h36]
  exact hm2 (q - 111)

/-- The binary header occurs at position 0. -/
theorem c7_bin_at0 (P1 P2 : List Nat) :
    NtripClient.binary_header.isPrefixOf ((c7Buf P1 P2).drop 0) = true := by
  rw [List.drop_zero, c7Buf,
    show NtripClient.binary_header ++ P1 ++ c7Sent ++ NtripClient.binary_header ++ P2
      = NtripClient.binary_header ++
          (P1 ++ (c7Sent ++ (NtripClient.binary_header ++ P2)))
      from by simp [List.append_assoc]]
  exact List.isPrefixOf_iff_prefix.mpr (List.prefix_append _ _)

/-- `$GP` occurs at position 40. -/
theorem c7_asc_at40 (P1 P2 : List Nat) (h36 : P1.length = 36) :
    NtripClient.ascii_start.isPrefixOf ((c7Buf P1 P2).drop 40) = true := by
  rw [c7Buf_drop_40 P1 P2 h36,
    isPrefixOf_append_left _ _ _ (by decide)]
  decide

/-- The binary header occurs at position 107. -/
theorem c7_bin_at107 (P1 P2 : List Nat) (h36 : P1.length = 36) :
    NtripClient.binary_header.isPrefixOf ((c7Buf P1 P2).drop 107) = true := by
  rw [c7Buf_drop_107 P1 P2 h36]
  exact List.isPrefixOf_iff_prefix.mpr (List.prefix_append _ _)

/-- CRLF occurs at position 105. -/
theorem c7_crlf_at105 (P1 P2 : List Nat) (h36 : P1.length = 36) :
    NtripClient.crlfBytes.isPrefixOf ((c7Buf P1 P2).drop 105) = true := by
  rw [show (105 : Nat) = 40 + 65 from rfl, c7Buf_drop_S P1 P2 h36 65 (by omega),
    show c7Sent.drop 65 = [13, 10] from rfl,
    isPrefixOf_append_left _ _ _ (by decide)]
  decide

/-- C7 (amended): for every 36-byte payload `P1` and every payload `P2`,
each containing no occurrence of the binary header or of `$GP`,
`split_data` on header ++ P1 ++ sentence ++ header ++ P2 returns exactly
one ASCII segment — the full sentence, CRLF included — and exactly two
binary segments, each extending from its header to the start of the next
recognised marker (the second to the end of the buffer), in original
order.  (The counterexample shows the restriction on the payloads is
necessary.) -/
theorem split_data_demux (P1 P2 : List Nat) (h36 : P1.length = 36)
    (hm1 : NoMarker P1) (hm2 : NoMarker P2) :
    NtripClient.split_data (c7Buf P1 P2) =
      ([c7Sent],
       [NtripClient.binary_header ++ P1, NtripClient.binary_header ++ P2]) := by
  have hL := c7Buf_length P1 P2 h36
  have hdolB : ∀ k, 1 ≤ k → k < NtripClient.binary_header.length →
      NtripClient.binary_header[k]? ≠ some 36 := by decide
  have hdolA : ∀ k, 1 ≤ k → k < NtripClient.ascii_start.length →
      NtripClient.ascii_start[k]? ≠ some 36 := by decide
  have hfb4 : findFrom (c7Buf P1 P2) NtripClient.binary_header 4 = some 107 := by
    refine findFrom_eq_some (by decide) (by omega) (c7_bin_at107 P1 P2 h36) ?_
    intro k h1 h2
    by_cases hk : k < 40
    · exact c7_noP1occ P1 P2 h36 _ (fun j => (hm1 j).1) hdolB k h1 hk
    · exact c7_noBinS P1 P2 h36 k (by omega) h2
  have hfa4 : findFrom (c7Buf P1 P2) NtripClient.ascii_start 4 = some 40 := by
    refine findFrom_eq_some (by decide) (by omega) (c7_asc_at40 P1 P2 h36) ?_
    intro k h1 h2
    exact c7_noP1occ P1 P2 h36 _ (fun j => (hm1 j).2) hdolA k h1 h2
  have hbE0 : NtripClient.binEnd (c7Buf P1 P2) 0 = 40 := by
    have hE : NtripClient.binEnd (c7Buf P1 P2) 0 =
        min ((findFrom (c7Buf P1 P2) NtripClient.binary_header 4).getD
              (c7Buf P1 P2).length)
            ((findFrom (c7Buf P1 P2) NtripClient.ascii_start 4).getD
              (c7Buf P1 P2).length) := rfl
    rw [hE, hfb4, hfa4]
    rfl
  have hfc40 : findFrom (c7Buf P1 P2) NtripClient.crlfBytes 40 = some 105 := by
    refine findFrom_eq_some (by decide) (by omega) (c7_crlf_at105 P1 P2 h36) ?_
    intro k h1 h2
    exact c7_noCrlf P1 P2 h36 k h1 h2
  have haE40 : NtripClient.ascEnd (c7Buf P1 P2) 40 = 107 := by
    rw [NtripClient.ascEnd, hfc40]
    rfl
  have hfb111 : findFrom (c7Buf P1 P2) NtripClient.binary_header 111 = none :=
    findFrom_eq_none (fun k hk => (c7_noP2occ P1 P2 h36 hm2 k hk).1)
  have hfa111 : findFrom (c7Buf P1 P2) NtripClient.ascii_start 111 = none :=
    findFrom_eq_none (fun k hk => (c7_noP2occ P1 P2 h36 hm2 k hk).2)
  have hbE107 : NtripClient.binEnd (c7Buf P1 P2) 107 = (c7Buf P1 P2).length := by
    have hE : NtripClient.binEnd (c7Buf P1 P2) 107 =
        min ((findFrom (c7Buf P1 P2) NtripClient.binary_header 111).getD
              (c7Buf P1 P2).length)
            ((findFrom (c7Buf P1 P2) NtripClient.ascii_start 111).getD
              (c7Buf P1 P2).length) := rfl
    rw [hE, hfb111, hfa111]
    simp
  have hsl0 : pySlice (c7Buf P1 P2) 0 40 = NtripClient.binary_header ++ P1 := by
    have l1 : (NtripClient.binary_header ++ P1).length = 40 := by
      simp [NtripClient.binary_header, h36]
    rw [pySlice, List.drop_zero, c7Buf,
      show NtripClient.binary_header ++ P1 ++ c7Sent ++ NtripClient.binary_header ++ P2
        = (NtripClient.binary_header ++ P1) ++
            (c7Sent ++ (NtripClient.binary_header ++ P2))
        from by simp [List.append_assoc],
      show (40 : Nat) - 0 = (NtripClient.binary_header ++ P1).length from by rw [l1]]
    exact List.take_left _ _
  have hsl40 : pySlice (c7Buf P1 P2) 40 107 = c7Sent := by
    rw [pySlice, c7Buf_drop_40 P1 P2 h36,
      show (107 : Nat) - 40 = c7Sent.length from rfl]
    exact List.take_left _ _
  have hsl107 : pySlice (c7Buf P1 P2) 107 (c7Buf P1 P2).length =
      NtripClient.binary_header ++ P2 := by
    rw [pySlice, c7Buf_drop_107 P1 P2 h36,
      show (c7Buf P1 P2).length - 107 = (NtripClient.binary_header ++ P2).length from by
        rw [hL, List.length_append]
        have lH : NtripClient.binary_header.length = 4 := rfl
        omega]
    exact List.take_length _
  rw [NtripClient.split_data]
  obtain ⟨f0, hf0⟩ : ∃ f, (c7Buf P1 P2).length = f + 1 := ⟨110 + P2.length, by omega⟩
  rw [hf0, splitDataAux_succ, if_pos (by omega), if_pos (c7_bin_at0 P1 P2), hbE0, hsl0]
  obtain ⟨f1, hf1⟩ : ∃ f, f0 = f + 1 := ⟨109 + P2.length, by omega⟩
  rw [hf1, splitDataAux_succ, if_pos (by omega),
    if_neg (by rw [c7_noBinS P1 P2 h36 40 (by omega) (by omega)]; simp),
    if_pos (c7_asc_at40 P1 P2 h36), haE40, hsl40]
  obtain ⟨f2, hf2⟩ : ∃ f, f1 = f + 1 := ⟨108 + P2.length, by omega⟩
  rw [hf2, splitDataAux_succ, if_pos (by omega), if_pos (c7_bin_at107 P1 P2 h36),
    hbE107, hsl107]
  rw [splitDataAux_fuel (c7Buf P1 P2) f2 0 (c7Buf P1 P2).length (by omega) (by omega),
    splitDataAux_zero]

/-- `NoMarker` only needs checking below the length: a nonempty pattern
never occurs in the empty suffix. -/
theorem noMarker_of_ball (P : List Nat)
    (h : ∀ j, j < P.length →
      NtripClient.binary_header.isPrefixOf (P.drop j) = false ∧
      NtripClient.ascii_start.isPrefixOf (P.drop j) = false) : NoMarker P := by
  intro j
  by_cases hj : j < P.length
  · exact h j hj
  · rw [List.drop_eq_nil_of_le (by omega)]
    exact ⟨rfl, rfl⟩

/-- C7 witness: the amended theorem applied to the concrete payloads of
thirty-six `0x07` bytes and ten `0x09` bytes. -/
theorem split_data_demux_witness :
    NtripClient.split_data (c7Buf (List.replicate 36 7) (List.replicate 10 9)) =
      ([c7Sent],
       [NtripClient.binary_header ++ List.replicate 36 7,
        NtripClient.binary_header ++ List.replicate 10 9]) :=
  split_data_demux (List.replicate 36 7) (List.replicate 10 9) (by decide)
    (noMarker_of_ball _ (by decide)) (noMarker_of_ball _ (by decide))
